import Mathlib

/-!
Verification development for the fx-open-range backtesting core.

This file gives a shallow embedding, in Lean 4 over exact rationals, of the
bar-level position-simulation engines of the repository:

* `src/src/backtest.py` — `backtest_strategy` (TP + SL, EOD fallback);
* `src/src/backtest_no_sl.py` — `backtest_strategy_no_sl` (TP only);
* `src/src/backtest_dual_market.py` — `backtest_dual_market_open`
  (EUR-open / US-open dual-session scheduler);
* the summary-statistics method `BacktestResult.get_summary_stats`
  (the fields the development reasons about: trade count, win rate,
  profit factor and maximum drawdown).

Python floats are embedded as `ℚ` (the properties at issue are control-flow
and exact-formula properties, not rounding properties); `np.inf` in the
profit factor is embedded by the two-constructor type `PFloat`; a pandas
value that may be `None`/`NaN` is embedded as `Option ℚ`; a signal column is
embedded as a `List Signal`, and `pandas.Series.reindex` over the bar index
as a total lookup defaulting to `flat` (a missing / NaN entry fails the
`signal in ['long', 'short']` test exactly as `flat` does).
-/

namespace FX

/-- Trade direction (the Python strings `'long'` / `'short'`). -/
inductive Dir where
  | long
  | short
deriving DecidableEq, Repr

/-- A per-bar trading signal (the Python strings `'long'`, `'short'`,
`'flat'`; any other or missing value behaves as `flat` in the engines). -/
inductive Signal where
  | long
  | short
  | flat
deriving DecidableEq, Repr

/-- The direction carried by a directional signal; `none` mirrors the
Python membership test `signal not in ['long', 'short']`. -/
def Signal.dir? : Signal → Option Dir
  | .long => some Dir.long
  | .short => some Dir.short
  | .flat => none

/-- Exit reasons recorded by the engines (the Python strings `'TP'` and
`'EOD'`; note the source never records an `'SL'` exit reason — the
SL-bearing engine `backtest_strategy` records no exit reason at all). -/
inductive ExitReason where
  | TP
  | EOD
deriving DecidableEq, Repr

/-- Session tag of the dual-market engine (the Python strings
`'eur'` / `'us'`, upper-cased to `'EUR'` / `'US'` in trade records). -/
inductive Session where
  | eur
  | us
deriving DecidableEq, Repr

/-- One daily OHLC bar; field names follow the DataFrame columns of
`data_loader.load_eurusd_data`. Dates are abstracted to naturals. -/
structure Bar where
  Date : ℕ
  Open : ℚ
  High : ℚ
  Low : ℚ
  Close : ℚ
deriving DecidableEq, Repr

/-- `data_loader.price_to_pips`: `price_diff * 10000`. -/
def price_to_pips (price_diff : ℚ) : ℚ := price_diff * 10000

/-- `data_loader.pips_to_price`: `pips / 10000`. -/
def pips_to_price (pips : ℚ) : ℚ := pips / 10000

/-- Signal lookup at a bar index: `signals.reindex(df.index)` followed by
`signals.loc[i]`; an index not covered by the signal list yields a value
that fails the `in ['long', 'short']` test, i.e. behaves as `flat`. -/
def sigAt (signals : List Signal) (i : ℕ) : Signal := signals.getD i Signal.flat

/-- One closed trade as recorded by `backtest_strategy` (`backtest.py`):
the dict literal has exactly the keys `date`, `direction`, `entry_price`,
`exit_price`, `pips` — in particular no `exit_reason` key. -/
structure Trade where
  date : ℕ
  direction : Dir
  entry_price : ℚ
  exit_price : ℚ
  pips : ℚ
deriving DecidableEq, Repr

/-- The loop state of the single-session engines: the accumulated trade
list, the equity curve built so far, and `current_equity`. -/
structure EngineState (T : Type) where
  trades : List T
  equity_curve : List ℚ
  current_equity : ℚ
deriving DecidableEq, Repr

/-- The result container `BacktestResult(trades, equity_curve)`,
parametrised by the trade record type of the producing engine. -/
structure BacktestResult (T : Type) where
  trades : List T
  equity_curve : List ℚ
deriving DecidableEq, Repr

/-- One iteration of the `for i in df.index` loop of `backtest_strategy`:
bar index 0 (and any non-directional signal) only appends an equity point;
a directional bar enters at the open, resolves SL-before-TP-before-EOD
from the bar's low/high, records a trade whose `exit_price` is the bar
close, and moves equity by `pips_result * 10`. -/
def stepBar (take_profit_pips stop_loss_pips cost_per_trade_pips : ℚ)
    (i : ℕ) (row : Bar) (signal : Signal) (st : EngineState Trade) :
    EngineState Trade :=
  if i = 0 then
    { st with equity_curve := st.equity_curve ++ [st.current_equity] }
  else
    match signal.dir? with
    | none => { st with equity_curve := st.equity_curve ++ [st.current_equity] }
    | some dir =>
      let open_price := row.Open
      let pips_result : ℚ :=
        match dir with
        | .long =>
          let tp_price := open_price + pips_to_price take_profit_pips
          let sl_price := open_price - pips_to_price stop_loss_pips
          if row.Low ≤ sl_price then
            -stop_loss_pips - cost_per_trade_pips
          else if row.High ≥ tp_price then
            take_profit_pips - cost_per_trade_pips
          else
            price_to_pips (row.Close - open_price) - cost_per_trade_pips
        | .short =>
          let tp_price := open_price - pips_to_price take_profit_pips
          let sl_price := open_price + pips_to_price stop_loss_pips
          if row.High ≥ sl_price then
            -stop_loss_pips - cost_per_trade_pips
          else if row.Low ≤ tp_price then
            take_profit_pips - cost_per_trade_pips
          else
            price_to_pips (open_price - row.Close) - cost_per_trade_pips
      let new_equity := st.current_equity + pips_result * 10
      { trades := st.trades ++
          [{ date := row.Date, direction := dir, entry_price := open_price,
             exit_price := row.Close, pips := pips_result }],
        equity_curve := st.equity_curve ++ [new_equity],
        current_equity := new_equity }

/-- The bar loop of `backtest_strategy`, indexed from `i`. -/
def btLoop (take_profit_pips stop_loss_pips cost_per_trade_pips : ℚ)
    (signals : List Signal) :
    ℕ → List Bar → EngineState Trade → EngineState Trade
  | _, [], st => st
  | i, row :: rest, st =>
      btLoop take_profit_pips stop_loss_pips cost_per_trade_pips signals
        (i + 1) rest
        (stepBar take_profit_pips stop_loss_pips cost_per_trade_pips i row
          (sigAt signals i) st)

/-- `backtest.backtest_strategy`: the full single-session TP/SL engine. -/
def backtest_strategy (df : List Bar) (signals : List Signal)
    (take_profit_pips stop_loss_pips cost_per_trade_pips initial_equity : ℚ) :
    BacktestResult Trade :=
  let st := btLoop take_profit_pips stop_loss_pips cost_per_trade_pips signals
    0 df { trades := [], equity_curve := [], current_equity := initial_equity }
  { trades := st.trades, equity_curve := st.equity_curve }

/-- One closed trade as recorded by `backtest_strategy_no_sl`
(`backtest_no_sl.py`): the dict has keys `date`, `direction`,
`entry_price`, `exit_price`, `exit_reason`, `pips`, `tp_hit`. -/
structure TradeNoSL where
  date : ℕ
  direction : Dir
  entry_price : ℚ
  exit_price : ℚ
  exit_reason : ExitReason
  pips : ℚ
  tp_hit : Bool
deriving DecidableEq, Repr

/-- One iteration of the bar loop of `backtest_strategy_no_sl`: bar index 0
and non-directional signals only append an equity point; a directional bar
exits at the take-profit price on a TP touch (high/low test) and otherwise
closes at the bar close with `exit_reason = 'EOD'`. -/
def stepBarNoSL (take_profit_pips cost_per_trade_pips : ℚ)
    (i : ℕ) (row : Bar) (signal : Signal) (st : EngineState TradeNoSL) :
    EngineState TradeNoSL :=
  if i = 0 then
    { st with equity_curve := st.equity_curve ++ [st.current_equity] }
  else
    match signal.dir? with
    | none => { st with equity_curve := st.equity_curve ++ [st.current_equity] }
    | some dir =>
      let open_price := row.Open
      let close_price := row.Close
      let outcome : ℚ × ℚ × ExitReason :=
        match dir with
        | .long =>
          let tp_price := open_price + pips_to_price take_profit_pips
          if row.High ≥ tp_price then
            (take_profit_pips - cost_per_trade_pips, tp_price, ExitReason.TP)
          else
            (price_to_pips (close_price - open_price) - cost_per_trade_pips,
              close_price, ExitReason.EOD)
        | .short =>
          let tp_price := open_price - pips_to_price take_profit_pips
          if row.Low ≤ tp_price then
            (take_profit_pips - cost_per_trade_pips, tp_price, ExitReason.TP)
          else
            (price_to_pips (open_price - close_price) - cost_per_trade_pips,
              close_price, ExitReason.EOD)
      let pips_result := outcome.1
      let exit_price := outcome.2.1
      let exit_reason := outcome.2.2
      let new_equity := st.current_equity + pips_result * 10
      { trades := st.trades ++
          [{ date := row.Date, direction := dir, entry_price := open_price,
             exit_price := exit_price, exit_reason := exit_reason,
             pips := pips_result, tp_hit := decide (exit_reason = ExitReason.TP) }],
        equity_curve := st.equity_curve ++ [new_equity],
        current_equity := new_equity }

/-- The bar loop of `backtest_strategy_no_sl`, indexed from `i`. -/
def noslLoop (take_profit_pips cost_per_trade_pips : ℚ)
    (signals : List Signal) :
    ℕ → List Bar → EngineState TradeNoSL → EngineState TradeNoSL
  | _, [], st => st
  | i, row :: rest, st =>
      noslLoop take_profit_pips cost_per_trade_pips signals (i + 1) rest
        (stepBarNoSL take_profit_pips cost_per_trade_pips i row
          (sigAt signals i) st)

/-- `backtest_no_sl.backtest_strategy_no_sl`: the TP-only engine. -/
def backtest_strategy_no_sl (df : List Bar) (signals : List Signal)
    (take_profit_pips cost_per_trade_pips initial_equity : ℚ) :
    BacktestResult TradeNoSL :=
  let st := noslLoop take_profit_pips cost_per_trade_pips signals 0 df
    { trades := [], equity_curve := [], current_equity := initial_equity }
  { trades := st.trades, equity_curve := st.equity_curve }

/-- One row of the dual-market `signals_df` (columns `eur_signal`,
`us_signal`, `eur_open_price`, `us_open_price`); a `None`/`NaN` price is
embedded as `none` (both fail `is not None and pd.notna(...)`). -/
structure SignalRow where
  eur_signal : Signal
  us_signal : Signal
  eur_open_price : Option ℚ
  us_open_price : Option ℚ
deriving DecidableEq, Repr

/-- Signal-row lookup mirroring `signals_df.reindex(df.index)`: a missing
row behaves as an all-NaN row (flat signals, no prices). -/
def srAt (rows : List SignalRow) (i : ℕ) : SignalRow :=
  rows.getD i { eur_signal := Signal.flat, us_signal := Signal.flat,
                eur_open_price := none, us_open_price := none }

/-- The `open_position` dict of `backtest_dual_market_open`. -/
structure Position where
  direction : Dir
  entry_price : ℚ
  entry_time : Session
  entry_date : ℕ
  entry_index : ℕ
deriving DecidableEq, Repr

/-- One closed trade as recorded by `backtest_dual_market_open`: keys
`date`, `direction`, `entry_price`, `exit_price`, `exit_reason`,
`session`, `pips`, `tp_hit`. -/
structure TradeDual where
  date : ℕ
  direction : Dir
  entry_price : ℚ
  exit_price : ℚ
  exit_reason : ExitReason
  session : Session
  pips : ℚ
  tp_hit : Bool
deriving DecidableEq, Repr

/-- The loop state of the dual-market engine: the single-session state
plus the tracked `open_position`. -/
structure DualState where
  trades : List TradeDual
  equity_curve : List ℚ
  current_equity : ℚ
  open_position : Option Position
deriving DecidableEq, Repr

/-- The dual-market TP test: daily high/low against the entry price offset
by the take-profit distance. -/
def tpHitCheck (take_profit_pips : ℚ) (row : Bar) (pos : Position) : Bool :=
  match pos.direction with
  | .long => decide (row.High ≥ pos.entry_price + pips_to_price take_profit_pips)
  | .short => decide (row.Low ≤ pos.entry_price - pips_to_price take_profit_pips)

/-- Closing an open dual-market position at its take-profit price:
appends the `'TP'` trade, credits `pips_result * 10`, clears the position.
The equity curve is untouched (the per-bar point is appended later). -/
def closeTpBlock (take_profit_pips cost_per_trade_pips : ℚ)
    (pos : Position) (st : DualState) : DualState :=
  let pips_result := take_profit_pips - cost_per_trade_pips
  let exit_price :=
    match pos.direction with
    | .long => pos.entry_price + pips_to_price take_profit_pips
    | .short => pos.entry_price - pips_to_price take_profit_pips
  { trades := st.trades ++
      [{ date := pos.entry_date, direction := pos.direction,
         entry_price := pos.entry_price, exit_price := exit_price,
         exit_reason := ExitReason.TP, session := pos.entry_time,
         pips := pips_result, tp_hit := true }],
    equity_curve := st.equity_curve,
    current_equity := st.current_equity + pips_result * 10,
    open_position := none }

/-- The "Process EUR market open trade" block: enter at the EUR open price
when the EUR signal is directional, the price is present, and no position
is open. -/
def eurEntryBlock (i : ℕ) (row : Bar) (sr : SignalRow) (st : DualState) :
    DualState :=
  match sr.eur_signal.dir?, sr.eur_open_price with
  | some d, some p =>
    match st.open_position with
    | none =>
      let pos : Position :=
        { direction := d, entry_price := p, entry_time := Session.eur,
          entry_date := row.Date, entry_index := i }
      { st with open_position := some pos }
    | some _ => st
  | _, _ => st

/-- The "Check if EUR trade hit TP" block: only inspects a position whose
`entry_time` is `'eur'`, using the daily high/low. -/
def eurTpBlock (take_profit_pips cost_per_trade_pips : ℚ) (row : Bar)
    (st : DualState) : DualState :=
  match st.open_position with
  | some pos =>
    if pos.entry_time = Session.eur then
      if tpHitCheck take_profit_pips row pos then
        closeTpBlock take_profit_pips cost_per_trade_pips pos st
      else st
    else st
  | none => st

/-- The "Process US market open trade" block: enter at the US open price
only when no position is open. -/
def usEntryBlock (i : ℕ) (row : Bar) (sr : SignalRow) (st : DualState) :
    DualState :=
  match st.open_position with
  | none =>
    match sr.us_signal.dir?, sr.us_open_price with
    | some d, some p =>
      let pos : Position :=
        { direction := d, entry_price := p, entry_time := Session.us,
          entry_date := row.Date, entry_index := i }
      { st with open_position := some pos }
    | _, _ => st
  | some _ => st

/-- The "Check if US trade hit TP" block: only inspects a position whose
`entry_time` is `'us'`. -/
def usTpBlock (take_profit_pips cost_per_trade_pips : ℚ) (row : Bar)
    (st : DualState) : DualState :=
  match st.open_position with
  | some pos =>
    if pos.entry_time = Session.us then
      if tpHitCheck take_profit_pips row pos then
        closeTpBlock take_profit_pips cost_per_trade_pips pos st
      else st
    else st
  | none => st

/-- The "Close any open positions at end of day" block: an `'EOD'` trade
at the bar close with signed-difference pips, clearing the position. -/
def eodBlock (cost_per_trade_pips : ℚ) (row : Bar) (st : DualState) :
    DualState :=
  match st.open_position with
  | some pos =>
    let close_price := row.Close
    let pips_result :=
      match pos.direction with
      | .long => price_to_pips (close_price - pos.entry_price) - cost_per_trade_pips
      | .short => price_to_pips (pos.entry_price - close_price) - cost_per_trade_pips
    { trades := st.trades ++
        [{ date := pos.entry_date, direction := pos.direction,
           entry_price := pos.entry_price, exit_price := close_price,
           exit_reason := ExitReason.EOD, session := pos.entry_time,
           pips := pips_result, tp_hit := false }],
      equity_curve := st.equity_curve,
      current_equity := st.current_equity + pips_result * 10,
      open_position := none }
  | none => st

/-- One iteration of the `for i in df.index` loop of
`backtest_dual_market_open`: bar index 0 only appends an equity point
(`continue` skips every block); otherwise the five blocks run in source
order and exactly one equity point is appended at the end. -/
def dualStep (take_profit_pips cost_per_trade_pips : ℚ)
    (i : ℕ) (row : Bar) (sr : SignalRow) (st : DualState) : DualState :=
  if i = 0 then
    { st with equity_curve := st.equity_curve ++ [st.current_equity] }
  else
    let st1 := eurEntryBlock i row sr st
    let st2 := eurTpBlock take_profit_pips cost_per_trade_pips row st1
    let st3 := usEntryBlock i row sr st2
    let st4 := usTpBlock take_profit_pips cost_per_trade_pips row st3
    let st5 := eodBlock cost_per_trade_pips row st4
    { st5 with equity_curve := st5.equity_curve ++ [st5.current_equity] }

/-- The bar loop of `backtest_dual_market_open`, indexed from `i`. -/
def dualLoop (take_profit_pips cost_per_trade_pips : ℚ)
    (rows : List SignalRow) :
    ℕ → List Bar → DualState → DualState
  | _, [], st => st
  | i, row :: rest, st =>
      dualLoop take_profit_pips cost_per_trade_pips rows (i + 1) rest
        (dualStep take_profit_pips cost_per_trade_pips i row (srAt rows i) st)

/-- The "Close any remaining open position at the end" block after the
loop of `backtest_dual_market_open`: closes at the last bar's close and
overwrites the last equity point (`equity_curve[-1] = current_equity`).
Inside every non-skipped loop iteration the EOD block already clears the
position, so from the engine's initial state this block never fires. -/
def dualFinalBlock (cost_per_trade_pips : ℚ) (df : List Bar)
    (st : DualState) : DualState :=
  match st.open_position with
  | some pos =>
    let zeroBar : Bar :=
      { Date := 0, Open := 0, High := 0, Low := 0, Close := 0 }
    let close_price := (df.getLastD zeroBar).Close
    let pips_result :=
      match pos.direction with
      | .long => price_to_pips (close_price - pos.entry_price) - cost_per_trade_pips
      | .short => price_to_pips (pos.entry_price - close_price) - cost_per_trade_pips
    let new_equity := st.current_equity + pips_result * 10
    { trades := st.trades ++
        [{ date := pos.entry_date, direction := pos.direction,
           entry_price := pos.entry_price, exit_price := close_price,
           exit_reason := ExitReason.EOD, session := pos.entry_time,
           pips := pips_result, tp_hit := false }],
      equity_curve := st.equity_curve.dropLast ++ [new_equity],
      current_equity := new_equity,
      open_position := none }
  | none => st

/-- `backtest_dual_market.backtest_dual_market_open`: the dual-session
engine. -/
def backtest_dual_market_open (df : List Bar) (signals_df : List SignalRow)
    (take_profit_pips cost_per_trade_pips initial_equity : ℚ) :
    BacktestResult TradeDual :=
  let st := dualLoop take_profit_pips cost_per_trade_pips signals_df 0 df
    { trades := [], equity_curve := [], current_equity := initial_equity,
      open_position := none }
  let st' := dualFinalBlock cost_per_trade_pips df st
  { trades := st'.trades, equity_curve := st'.equity_curve }

/-- A float that may be `np.inf` (the only non-finite value
`get_summary_stats` can produce, in its `profit_factor` field); the
embedding makes `NaN` unrepresentable, matching the guard
`len(losing_trades) > 0 and losing_trades['pips'].sum() != 0` that keeps
the division well defined in the source. -/
inductive PFloat where
  | val (q : ℚ)
  | inf
deriving DecidableEq, Repr

/-- `np.maximum.accumulate` over a list: running maxima. -/
def runningMaxFrom (m : ℚ) : List ℚ → List ℚ
  | [] => []
  | x :: xs => max m x :: runningMaxFrom (max m x) xs

/-- `np.maximum.accumulate` applied to the equity values. -/
def runningMax : List ℚ → List ℚ
  | [] => []
  | x :: xs => x :: runningMaxFrom x xs

/-- `np.min` over a list (the source only applies it to nonempty arrays,
where this agrees with numpy; the `[]` case is junk, never reached from
the guarded call sites). -/
def listMin : List ℚ → ℚ
  | [] => 0
  | x :: xs => xs.foldl min x

/-- `drawdown = equity - running_max` of `get_summary_stats`. -/
def drawdownOf (equity : List ℚ) : List ℚ :=
  List.zipWith (fun a b => a - b) equity (runningMax equity)

/-- The fields of the `get_summary_stats` dictionary that this
development reasons about. -/
structure SummaryStats where
  total_trades : ℕ
  win_rate : ℚ
  profit_factor : PFloat
  max_drawdown_pips : ℚ
deriving DecidableEq, Repr

/-- `BacktestResult.get_summary_stats`, projected onto the trade-level
inputs it actually reads (`trades['pips']` and the equity values) and the
output fields stated about in this development.  Mirrors the source's two
branches: the `len(trades) == 0` early return (win rate and profit factor
0, drawdown guarded by `len(drawdown) > 0 and drawdown.min() < 0`) and
the general branch (`win_rate = (pips > 0).sum() / len * 100`, winning =
`pips > 0`, losing = `pips <= 0`, `profit_factor =
abs(win_sum / lose_sum)` guarded to `np.inf`, and `max_drawdown_pips =
abs(drawdown.min())` — note: taken directly on the equity values, with no
conversion from currency units back to pips). -/
def get_summary_stats (trade_pips : List ℚ) (equity_curve : List ℚ) :
    SummaryStats :=
  if trade_pips = [] then
    let drawdown := drawdownOf equity_curve
    { total_trades := 0,
      win_rate := 0,
      profit_factor := PFloat.val 0,
      max_drawdown_pips :=
        if drawdown ≠ [] ∧ listMin drawdown < 0 then |listMin drawdown| else 0 }
  else
    let winning := trade_pips.filter (fun p => decide (0 < p))
    let losing := trade_pips.filter (fun p => decide (p ≤ 0))
    let drawdown := drawdownOf equity_curve
    { total_trades := trade_pips.length,
      win_rate := ((winning.length : ℚ) / (trade_pips.length : ℚ)) * 100,
      profit_factor :=
        if losing.length > 0 ∧ losing.sum ≠ 0 then
          PFloat.val |winning.sum / losing.sum|
        else PFloat.inf,
      max_drawdown_pips := |listMin drawdown| }

/-! ### Named forms of the per-bar exit conditions and pip formulas

These re-state, under a name usable in theorem statements, exactly the
branch conditions and branch results of the engine loops above; each is a
direct transcription of the corresponding two source branches. -/

/-- The stop-loss touch condition of `backtest_strategy`
(`row['Low'] <= sl_price` for a long, `row['High'] >= sl_price` for a
short, with `sl_price` offset from the bar open). -/
def slReachable (stop_loss_pips : ℚ) (row : Bar) : Dir → Prop
  | .long => row.Low ≤ row.Open - pips_to_price stop_loss_pips
  | .short => row.High ≥ row.Open + pips_to_price stop_loss_pips

/-- The take-profit touch condition of the single-session engines
(`row['High'] >= tp_price` for a long, `row['Low'] <= tp_price` for a
short, with `tp_price` offset from the bar open). -/
def tpReachable (take_profit_pips : ℚ) (row : Bar) : Dir → Prop
  | .long => row.High ≥ row.Open + pips_to_price take_profit_pips
  | .short => row.Low ≤ row.Open - pips_to_price take_profit_pips

/-- The end-of-day pips of the single-session engines: the signed
close-minus-entry price difference in pips (entry-minus-close for a
short), minus the per-trade cost. -/
def eodPips (cost_per_trade_pips : ℚ) (row : Bar) : Dir → ℚ
  | .long => price_to_pips (row.Close - row.Open) - cost_per_trade_pips
  | .short => price_to_pips (row.Open - row.Close) - cost_per_trade_pips

/-- The pips realized by a directional bar of `backtest_strategy`:
SL checked first, then TP, then end-of-day. -/
def btBarPips (take_profit_pips stop_loss_pips cost_per_trade_pips : ℚ)
    (row : Bar) (d : Dir) : ℚ :=
  match d with
  | .long =>
    if row.Low ≤ row.Open - pips_to_price stop_loss_pips then
      -stop_loss_pips - cost_per_trade_pips
    else if row.High ≥ row.Open + pips_to_price take_profit_pips then
      take_profit_pips - cost_per_trade_pips
    else price_to_pips (row.Close - row.Open) - cost_per_trade_pips
  | .short =>
    if row.High ≥ row.Open + pips_to_price stop_loss_pips then
      -stop_loss_pips - cost_per_trade_pips
    else if row.Low ≤ row.Open - pips_to_price take_profit_pips then
      take_profit_pips - cost_per_trade_pips
    else price_to_pips (row.Open - row.Close) - cost_per_trade_pips

/-- The pips realized by a trade as a function of its recorded entry and
exit prices: signed difference (exit minus entry for a long, entry minus
exit for a short) in pips, minus the per-trade cost. -/
def tradePipsFromPrices (cost_per_trade_pips : ℚ) (entry_price exitp : ℚ) :
    Dir → ℚ
  | .long => price_to_pips (exitp - entry_price) - cost_per_trade_pips
  | .short => price_to_pips (entry_price - exitp) - cost_per_trade_pips

/-- The trade recorded by a directional bar of `backtest_strategy_no_sl`:
a `'TP'` exit at the theoretical take-profit price if the bar touches it,
otherwise an `'EOD'` exit at the bar close. -/
def noslBarTrade (take_profit_pips cost_per_trade_pips : ℚ) (row : Bar)
    (d : Dir) : TradeNoSL :=
  match d with
  | .long =>
    if row.High ≥ row.Open + pips_to_price take_profit_pips then
      { date := row.Date, direction := Dir.long, entry_price := row.Open,
        exit_price := row.Open + pips_to_price take_profit_pips,
        exit_reason := ExitReason.TP,
        pips := take_profit_pips - cost_per_trade_pips, tp_hit := true }
    else
      { date := row.Date, direction := Dir.long, entry_price := row.Open,
        exit_price := row.Close, exit_reason := ExitReason.EOD,
        pips := price_to_pips (row.Close - row.Open) - cost_per_trade_pips,
        tp_hit := false }
  | .short =>
    if row.Low ≤ row.Open - pips_to_price take_profit_pips then
      { date := row.Date, direction := Dir.short, entry_price := row.Open,
        exit_price := row.Open - pips_to_price take_profit_pips,
        exit_reason := ExitReason.TP,
        pips := take_profit_pips - cost_per_trade_pips, tp_hit := true }
    else
      { date := row.Date, direction := Dir.short, entry_price := row.Open,
        exit_price := row.Close, exit_reason := ExitReason.EOD,
        pips := price_to_pips (row.Open - row.Close) - cost_per_trade_pips,
        tp_hit := false }

/-- The end-of-day pips of a dual-market position (signed close-vs-entry
difference in pips minus cost, direction-dependent). -/
def dualEodPips (cost_per_trade_pips : ℚ) (row : Bar) (pos : Position) : ℚ :=
  match pos.direction with
  | .long => price_to_pips (row.Close - pos.entry_price) - cost_per_trade_pips
  | .short => price_to_pips (pos.entry_price - row.Close) - cost_per_trade_pips

/-- The theoretical take-profit exit price of a dual-market position. -/
def tpExitPrice (take_profit_pips : ℚ) (pos : Position) : ℚ :=
  match pos.direction with
  | .long => pos.entry_price + pips_to_price take_profit_pips
  | .short => pos.entry_price - pips_to_price take_profit_pips

/-- The fresh engine state every backtest run starts from. -/
def initState (T : Type) (initial_equity : ℚ) : EngineState T :=
  { trades := [], equity_curve := [], current_equity := initial_equity }

/-- The fresh dual-engine state. -/
def initDualState (initial_equity : ℚ) : DualState :=
  { trades := [], equity_curve := [], current_equity := initial_equity,
    open_position := none }

/-! ### Concrete fixtures used by witnesses and counterexamples -/

/-- A dummy index-0 bar (its content is ignored by every engine). -/
def wBar0 : Bar := { Date := 0, Open := 1, High := 1, Low := 1, Close := 1 }

/-- A bar on which, entering long at the open with `tp = 10`, `sl = 20`,
both thresholds are reachable: low `1.1575 ≤ 1.1580` and high
`1.1625 ≥ 1.1610`. -/
def wBarBoth : Bar :=
  { Date := 1, Open := 1.16, High := 1.1625, Low := 1.1575, Close := 1.1610 }

/-- A bar on which, entering long at the open with `tp = 10`, `sl = 20`,
only the take-profit is reachable, and whose close `1.1612` differs from
the theoretical TP price `1.1610`. -/
def wBarTp : Bar :=
  { Date := 1, Open := 1.16, High := 1.1625, Low := 1.1595, Close := 1.1612 }

/-- A bar on which, entering long at the open with `tp = 10`, `sl = 20`,
neither threshold is reachable (an end-of-day exit). -/
def wBarEod : Bar :=
  { Date := 1, Open := 1.16, High := 1.1605, Low := 1.1595, Close := 1.1602 }

/-- Signals: flat on the index-0 bar, long on the next. -/
def wSigsLong : List Signal := [Signal.flat, Signal.long]

/-- All-flat signals. -/
def wSigsFlat : List Signal := [Signal.flat, Signal.flat]

/-- An all-NaN dual-market signal row. -/
def wRowNone : SignalRow :=
  { eur_signal := Signal.flat, us_signal := Signal.flat,
    eur_open_price := none, us_open_price := none }

/-- A dual-market signal row with both sessions directional and priced. -/
def wRowBoth : SignalRow :=
  { eur_signal := Signal.long, us_signal := Signal.short,
    eur_open_price := some 1.16, us_open_price := some 1.17 }

/-- Dual-market signal rows for a two-bar series. -/
def wRowsDual : List SignalRow := [wRowNone, wRowBoth]

/-! ### Structural lemmas about the single-session TP/SL engine -/

/-- Every iteration of `backtest_strategy` appends zero or one trade and
exactly one equity point, the appended point is the new current equity,
and an iteration that appends no trade leaves equity unchanged. -/
theorem stepBar_shape (tp sl cost : ℚ) (i : ℕ) (row : Bar) (sig : Signal)
    (st : EngineState Trade) :
    ∃ e q, (stepBar tp sl cost i row sig st).trades = st.trades ++ e ∧
      (stepBar tp sl cost i row sig st).equity_curve = st.equity_curve ++ [q] ∧
      (stepBar tp sl cost i row sig st).current_equity = q ∧
      (e = [] → q = st.current_equity) := by
  unfold stepBar
  split
  · exact ⟨[], st.current_equity, by simp, rfl, rfl, fun _ => rfl⟩
  · cases hd : sig.dir? with
    | none =>
      simp only [hd]
      exact ⟨[], st.current_equity, by simp, rfl, rfl, fun _ => rfl⟩
    | some dir =>
      simp only [hd]
      refine ⟨_, _, rfl, rfl, rfl, ?_⟩
      intro h
      exact absurd h (by simp)

theorem btLoop_append (tp sl cost : ℚ) (sigs : List Signal)
    (l₁ l₂ : List Bar) (i : ℕ) (st : EngineState Trade) :
    btLoop tp sl cost sigs i (l₁ ++ l₂) st =
      btLoop tp sl cost sigs (i + l₁.length) l₂ (btLoop tp sl cost sigs i l₁ st) := by
  induction l₁ generalizing i st with
  | nil => simp [btLoop]
  | cons b rest ih =>
    simp only [List.cons_append, btLoop, List.length_cons, List.append_eq]
    rw [ih]
    have harith : i + 1 + rest.length = i + (rest.length + 1) := by omega
    rw [harith]

theorem btLoop_trades_mono (tp sl cost : ℚ) (sigs : List Signal)
    (l : List Bar) (i : ℕ) (st : EngineState Trade) :
    ∃ e, (btLoop tp sl cost sigs i l st).trades = st.trades ++ e := by
  induction l generalizing i st with
  | nil => exact ⟨[], by simp [btLoop]⟩
  | cons b rest ih =>
    obtain ⟨e, -, he, -, -, -⟩ := stepBar_shape tp sl cost i b (sigAt sigs i) st
    obtain ⟨e', he'⟩ := ih (i + 1) (stepBar tp sl cost i b (sigAt sigs i) st)
    exact ⟨e ++ e', by rw [btLoop, he', he, List.append_assoc]⟩

theorem btLoop_curve_mono (tp sl cost : ℚ) (sigs : List Signal)
    (l : List Bar) (i : ℕ) (st : EngineState Trade) :
    ∃ r, (btLoop tp sl cost sigs i l st).equity_curve = st.equity_curve ++ r ∧
      r.length = l.length := by
  induction l generalizing i st with
  | nil => exact ⟨[], by simp [btLoop], rfl⟩
  | cons b rest ih =>
    obtain ⟨e, q, -, hc, -, -⟩ := stepBar_shape tp sl cost i b (sigAt sigs i) st
    obtain ⟨r, hr, hlen⟩ := ih (i + 1) (stepBar tp sl cost i b (sigAt sigs i) st)
    refine ⟨[q] ++ r, ?_, by simp [hlen]⟩
    rw [btLoop, hr, hc, List.append_assoc]

theorem btLoop_last (tp sl cost : ℚ) (sigs : List Signal)
    (l : List Bar) (i : ℕ) (st : EngineState Trade) (hl : l ≠ []) :
    (btLoop tp sl cost sigs i l st).equity_curve.getLast? =
      some (btLoop tp sl cost sigs i l st).current_equity := by
  induction l generalizing i st with
  | nil => exact absurd rfl hl
  | cons b rest ih =>
    by_cases hrest : rest = []
    · subst hrest
      obtain ⟨e, q, -, hc, hq, -⟩ := stepBar_shape tp sl cost i b (sigAt sigs i) st
      simp [btLoop, hc, hq]
    · rw [btLoop]
      exact ih _ _ hrest

/-- An iteration of `backtest_strategy` that records no trade only
repeats the current equity on the curve. -/
theorem stepBar_no_trade (tp sl cost : ℚ) (i : ℕ) (row : Bar) (sig : Signal)
    (st : EngineState Trade)
    (h : (stepBar tp sl cost i row sig st).trades = st.trades) :
    (stepBar tp sl cost i row sig st).equity_curve =
      st.equity_curve ++ [st.current_equity] := by
  obtain ⟨e, q, he, hc, -, hz⟩ := stepBar_shape tp sl cost i row sig st
  rw [he] at h
  have he0 : e = [] := by
    have hlen := congrArg List.length h
    simp only [List.length_append] at hlen
    exact List.length_eq_zero.mp (by omega)
  rw [hc, hz he0]

/-! ### Structural lemmas about the TP-only engine -/

/-- Per-iteration shape of `backtest_strategy_no_sl` (as
`stepBar_shape`). -/
theorem stepBarNoSL_shape (tp cost : ℚ) (i : ℕ) (row : Bar) (sig : Signal)
    (st : EngineState TradeNoSL) :
    ∃ e q, (stepBarNoSL tp cost i row sig st).trades = st.trades ++ e ∧
      (stepBarNoSL tp cost i row sig st).equity_curve = st.equity_curve ++ [q] ∧
      (stepBarNoSL tp cost i row sig st).current_equity = q ∧
      (e = [] → q = st.current_equity) := by
  unfold stepBarNoSL
  split
  · exact ⟨[], st.current_equity, by simp, rfl, rfl, fun _ => rfl⟩
  · cases hd : sig.dir? with
    | none =>
      simp only [hd]
      exact ⟨[], st.current_equity, by simp, rfl, rfl, fun _ => rfl⟩
    | some dir =>
      simp only [hd]
      refine ⟨_, _, rfl, rfl, rfl, ?_⟩
      intro h
      exact absurd h (by simp)

theorem noslLoop_append (tp cost : ℚ) (sigs : List Signal)
    (l₁ l₂ : List Bar) (i : ℕ) (st : EngineState TradeNoSL) :
    noslLoop tp cost sigs i (l₁ ++ l₂) st =
      noslLoop tp cost sigs (i + l₁.length) l₂ (noslLoop tp cost sigs i l₁ st) := by
  induction l₁ generalizing i st with
  | nil => simp [noslLoop]
  | cons b rest ih =>
    simp only [List.cons_append, noslLoop, List.length_cons, List.append_eq]
    rw [ih]
    have harith : i + 1 + rest.length = i + (rest.length + 1) := by omega
    rw [harith]

theorem noslLoop_trades_mono (tp cost : ℚ) (sigs : List Signal)
    (l : List Bar) (i : ℕ) (st : EngineState TradeNoSL) :
    ∃ e, (noslLoop tp cost sigs i l st).trades = st.trades ++ e := by
  induction l generalizing i st with
  | nil => exact ⟨[], by simp [noslLoop]⟩
  | cons b rest ih =>
    obtain ⟨e, -, he, -, -, -⟩ := stepBarNoSL_shape tp cost i b (sigAt sigs i) st
    obtain ⟨e', he'⟩ := ih (i + 1) (stepBarNoSL tp cost i b (sigAt sigs i) st)
    exact ⟨e ++ e', by rw [noslLoop, he', he, List.append_assoc]⟩

theorem noslLoop_curve_mono (tp cost : ℚ) (sigs : List Signal)
    (l : List Bar) (i : ℕ) (st : EngineState TradeNoSL) :
    ∃ r, (noslLoop tp cost sigs i l st).equity_curve = st.equity_curve ++ r ∧
      r.length = l.length := by
  induction l generalizing i st with
  | nil => exact ⟨[], by simp [noslLoop], rfl⟩
  | cons b rest ih =>
    obtain ⟨e, q, -, hc, -, -⟩ := stepBarNoSL_shape tp cost i b (sigAt sigs i) st
    obtain ⟨r, hr, hlen⟩ := ih (i + 1) (stepBarNoSL tp cost i b (sigAt sigs i) st)
    refine ⟨[q] ++ r, ?_, by simp [hlen]⟩
    rw [noslLoop, hr, hc, List.append_assoc]

theorem noslLoop_last (tp cost : ℚ) (sigs : List Signal)
    (l : List Bar) (i : ℕ) (st : EngineState TradeNoSL) (hl : l ≠ []) :
    (noslLoop tp cost sigs i l st).equity_curve.getLast? =
      some (noslLoop tp cost sigs i l st).current_equity := by
  induction l generalizing i st with
  | nil => exact absurd rfl hl
  | cons b rest ih =>
    by_cases hrest : rest = []
    · subst hrest
      obtain ⟨e, q, -, hc, hq, -⟩ := stepBarNoSL_shape tp cost i b (sigAt sigs i) st
      simp [noslLoop, hc, hq]
    · rw [noslLoop]
      exact ih _ _ hrest

/-- An iteration of `backtest_strategy_no_sl` that records no trade only
repeats the current equity on the curve. -/
theorem stepBarNoSL_no_trade (tp cost : ℚ) (i : ℕ) (row : Bar) (sig : Signal)
    (st : EngineState TradeNoSL)
    (h : (stepBarNoSL tp cost i row sig st).trades = st.trades) :
    (stepBarNoSL tp cost i row sig st).equity_curve =
      st.equity_curve ++ [st.current_equity] := by
  obtain ⟨e, q, he, hc, -, hz⟩ := stepBarNoSL_shape tp cost i row sig st
  rw [he] at h
  have he0 : e = [] := by
    have hlen := congrArg List.length h
    simp only [List.length_append] at hlen
    exact List.length_eq_zero.mp (by omega)
  rw [hc, hz he0]

/-! ### Structural lemmas about the dual-session engine -/

/-- The EUR entry block only touches `open_position`. -/
theorem eurEntryBlock_fields (i : ℕ) (row : Bar) (sr : SignalRow)
    (st : DualState) :
    (eurEntryBlock i row sr st).trades = st.trades ∧
    (eurEntryBlock i row sr st).equity_curve = st.equity_curve ∧
    (eurEntryBlock i row sr st).current_equity = st.current_equity := by
  unfold eurEntryBlock
  repeat' split
  all_goals exact ⟨rfl, rfl, rfl⟩

/-- The US entry block only touches `open_position`. -/
theorem usEntryBlock_fields (i : ℕ) (row : Bar) (sr : SignalRow)
    (st : DualState) :
    (usEntryBlock i row sr st).trades = st.trades ∧
    (usEntryBlock i row sr st).equity_curve = st.equity_curve ∧
    (usEntryBlock i row sr st).current_equity = st.current_equity := by
  unfold usEntryBlock
  repeat' split
  all_goals exact ⟨rfl, rfl, rfl⟩

/-- The EUR TP block appends zero or one trade, never touches the curve,
and leaves equity unchanged when it appends no trade. -/
theorem eurTpBlock_shape (tp cost : ℚ) (row : Bar) (st : DualState) :
    ∃ e, (eurTpBlock tp cost row st).trades = st.trades ++ e ∧
      (eurTpBlock tp cost row st).equity_curve = st.equity_curve ∧
      (e = [] → (eurTpBlock tp cost row st).current_equity = st.current_equity) := by
  unfold eurTpBlock
  repeat' split
  · exact ⟨_, rfl, rfl, fun h => absurd h (by simp)⟩
  all_goals exact ⟨[], by simp, rfl, fun _ => rfl⟩

/-- The US TP block appends zero or one trade, never touches the curve,
and leaves equity unchanged when it appends no trade. -/
theorem usTpBlock_shape (tp cost : ℚ) (row : Bar) (st : DualState) :
    ∃ e, (usTpBlock tp cost row st).trades = st.trades ++ e ∧
      (usTpBlock tp cost row st).equity_curve = st.equity_curve ∧
      (e = [] → (usTpBlock tp cost row st).current_equity = st.current_equity) := by
  unfold usTpBlock
  repeat' split
  · exact ⟨_, rfl, rfl, fun h => absurd h (by simp)⟩
  all_goals exact ⟨[], by simp, rfl, fun _ => rfl⟩

/-- The EOD block appends zero or one trade, never touches the curve,
leaves equity unchanged when it appends no trade, and always ends with no
open position. -/
theorem eodBlock_shape (cost : ℚ) (row : Bar) (st : DualState) :
    ∃ e, (eodBlock cost row st).trades = st.trades ++ e ∧
      (eodBlock cost row st).equity_curve = st.equity_curve ∧
      (e = [] → (eodBlock cost row st).current_equity = st.current_equity) ∧
      (eodBlock cost row st).open_position = none := by
  unfold eodBlock
  cases hp : st.open_position with
  | some pos =>
    exact ⟨_, rfl, rfl, fun h => absurd h (by simp), rfl⟩
  | none =>
    exact ⟨[], by simp, rfl, fun _ => rfl, hp⟩

/-- Per-iteration shape of `backtest_dual_market_open`: from a bar
boundary with no open position, an iteration appends finitely many trades
and exactly one equity point equal to the new current equity, ends with
no open position, and leaves equity unchanged when it appends no trade. -/
theorem dualStep_shape (tp cost : ℚ) (i : ℕ) (row : Bar) (sr : SignalRow)
    (st : DualState) (hpos : st.open_position = none) :
    ∃ e q, (dualStep tp cost i row sr st).trades = st.trades ++ e ∧
      (dualStep tp cost i row sr st).equity_curve = st.equity_curve ++ [q] ∧
      (dualStep tp cost i row sr st).current_equity = q ∧
      (dualStep tp cost i row sr st).open_position = none ∧
      (e = [] → q = st.current_equity) := by
  unfold dualStep
  split
  · exact ⟨[], st.current_equity, by simp, rfl, rfl, hpos, fun _ => rfl⟩
  · obtain ⟨h1t, h1c, h1q⟩ := eurEntryBlock_fields i row sr st
    obtain ⟨e2, h2t, h2c, h2q⟩ := eurTpBlock_shape tp cost row (eurEntryBlock i row sr st)
    obtain ⟨h3t, h3c, h3q⟩ := usEntryBlock_fields i row sr
      (eurTpBlock tp cost row (eurEntryBlock i row sr st))
    obtain ⟨e4, h4t, h4c, h4q⟩ := usTpBlock_shape tp cost row
      (usEntryBlock i row sr (eurTpBlock tp cost row (eurEntryBlock i row sr st)))
    obtain ⟨e5, h5t, h5c, h5q, h5p⟩ := eodBlock_shape cost row
      (usTpBlock tp cost row (usEntryBlock i row sr
        (eurTpBlock tp cost row (eurEntryBlock i row sr st))))
    refine ⟨e2 ++ e4 ++ e5, _, ?_, ?_, rfl, h5p, ?_⟩
    · simp only [h5t, h4t, h3t, h2t, h1t, List.append_assoc]
    · simp only [h5c, h4c, h3c, h2c, h1c]
    · intro h
      obtain ⟨h24, h5⟩ := List.append_eq_nil.mp h
      obtain ⟨h2, h4⟩ := List.append_eq_nil.mp h24
      rw [h5q h5, h4q h4, h3q, h2q h2, h1q]

theorem dualLoop_append (tp cost : ℚ) (rows : List SignalRow)
    (l₁ l₂ : List Bar) (i : ℕ) (st : DualState) :
    dualLoop tp cost rows i (l₁ ++ l₂) st =
      dualLoop tp cost rows (i + l₁.length) l₂ (dualLoop tp cost rows i l₁ st) := by
  induction l₁ generalizing i st with
  | nil => simp [dualLoop]
  | cons b rest ih =>
    simp only [List.cons_append, dualLoop, List.length_cons, List.append_eq]
    rw [ih]
    have harith : i + 1 + rest.length = i + (rest.length + 1) := by omega
    rw [harith]

/-- The dual-session loop preserves the bar-boundary invariant "no open
position": the EOD block of every non-skipped iteration clears it. -/
theorem dualLoop_pos (tp cost : ℚ) (rows : List SignalRow)
    (l : List Bar) (i : ℕ) (st : DualState) (hpos : st.open_position = none) :
    (dualLoop tp cost rows i l st).open_position = none := by
  induction l generalizing i st with
  | nil => exact hpos
  | cons b rest ih =>
    rw [dualLoop]
    obtain ⟨-, -, -, -, -, hp, -⟩ := dualStep_shape tp cost i b (srAt rows i) st hpos
    exact ih _ _ hp

theorem dualLoop_trades_mono (tp cost : ℚ) (rows : List SignalRow)
    (l : List Bar) (i : ℕ) (st : DualState) (hpos : st.open_position = none) :
    ∃ e, (dualLoop tp cost rows i l st).trades = st.trades ++ e := by
  induction l generalizing i st with
  | nil => exact ⟨[], by simp [dualLoop]⟩
  | cons b rest ih =>
    obtain ⟨e, -, he, -, -, hp, -⟩ := dualStep_shape tp cost i b (srAt rows i) st hpos
    obtain ⟨e', he'⟩ := ih (i + 1) (dualStep tp cost i b (srAt rows i) st) hp
    exact ⟨e ++ e', by rw [dualLoop, he', he, List.append_assoc]⟩

theorem dualLoop_curve_mono (tp cost : ℚ) (rows : List SignalRow)
    (l : List Bar) (i : ℕ) (st : DualState) (hpos : st.open_position = none) :
    ∃ r, (dualLoop tp cost rows i l st).equity_curve = st.equity_curve ++ r ∧
      r.length = l.length := by
  induction l generalizing i st with
  | nil => exact ⟨[], by simp [dualLoop], rfl⟩
  | cons b rest ih =>
    obtain ⟨e, q, -, hc, -, hp, -⟩ := dualStep_shape tp cost i b (srAt rows i) st hpos
    obtain ⟨r, hr, hlen⟩ := ih (i + 1) (dualStep tp cost i b (srAt rows i) st) hp
    refine ⟨[q] ++ r, ?_, by simp [hlen]⟩
    rw [dualLoop, hr, hc, List.append_assoc]

theorem dualLoop_last (tp cost : ℚ) (rows : List SignalRow)
    (l : List Bar) (i : ℕ) (st : DualState) (hpos : st.open_position = none)
    (hl : l ≠ []) :
    (dualLoop tp cost rows i l st).equity_curve.getLast? =
      some (dualLoop tp cost rows i l st).current_equity := by
  induction l generalizing i st with
  | nil => exact absurd rfl hl
  | cons b rest ih =>
    obtain ⟨e, q, -, hc, hq, hp, -⟩ := dualStep_shape tp cost i b (srAt rows i) st hpos
    by_cases hrest : rest = []
    · subst hrest
      simp [dualLoop, hc, hq]
    · rw [dualLoop]
      exact ih _ _ hp hrest

/-- An iteration of the dual-session engine that records no trade only
repeats the current equity on the curve. -/
theorem dualStep_no_trade (tp cost : ℚ) (i : ℕ) (row : Bar) (sr : SignalRow)
    (st : DualState) (hpos : st.open_position = none)
    (h : (dualStep tp cost i row sr st).trades = st.trades) :
    (dualStep tp cost i row sr st).equity_curve =
      st.equity_curve ++ [st.current_equity] := by
  obtain ⟨e, q, he, hc, -, -, hz⟩ := dualStep_shape tp cost i row sr st hpos
  rw [he] at h
  have he0 : e = [] := by
    have hlen := congrArg List.length h
    simp only [List.length_append] at hlen
    exact List.length_eq_zero.mp (by omega)
  rw [hc, hz he0]

/-- With no position left open, the post-loop closing block of
`backtest_dual_market_open` is the identity. -/
theorem dualFinalBlock_none (cost : ℚ) (df : List Bar) (st : DualState)
    (hpos : st.open_position = none) : dualFinalBlock cost df st = st := by
  unfold dualFinalBlock
  rw [hpos]

/-! ### Splitting a run at a distinguished bar -/

theorem btLoop_cons_split (tp sl cost : ℚ) (sigs : List Signal)
    (l₁ l₂ : List Bar) (bar : Bar) (i : ℕ) (st : EngineState Trade) :
    btLoop tp sl cost sigs i (l₁ ++ bar :: l₂) st =
      btLoop tp sl cost sigs (i + l₁.length + 1) l₂
        (stepBar tp sl cost (i + l₁.length) bar (sigAt sigs (i + l₁.length))
          (btLoop tp sl cost sigs i l₁ st)) := by
  rw [btLoop_append]
  rfl

theorem noslLoop_cons_split (tp cost : ℚ) (sigs : List Signal)
    (l₁ l₂ : List Bar) (bar : Bar) (i : ℕ) (st : EngineState TradeNoSL) :
    noslLoop tp cost sigs i (l₁ ++ bar :: l₂) st =
      noslLoop tp cost sigs (i + l₁.length + 1) l₂
        (stepBarNoSL tp cost (i + l₁.length) bar (sigAt sigs (i + l₁.length))
          (noslLoop tp cost sigs i l₁ st)) := by
  rw [noslLoop_append]
  rfl

theorem dualLoop_cons_split (tp cost : ℚ) (rows : List SignalRow)
    (l₁ l₂ : List Bar) (bar : Bar) (i : ℕ) (st : DualState) :
    dualLoop tp cost rows i (l₁ ++ bar :: l₂) st =
      dualLoop tp cost rows (i + l₁.length + 1) l₂
        (dualStep tp cost (i + l₁.length) bar (srAt rows (i + l₁.length))
          (dualLoop tp cost rows i l₁ st)) := by
  rw [dualLoop_append]
  rfl

/-- Evaluating one directional, non-index-0 iteration of
`backtest_strategy`: the appended trade record in full. -/
theorem stepBar_trades_eval (tp sl cost : ℚ) (i : ℕ) (row : Bar)
    (sig : Signal) (d : Dir) (st : EngineState Trade)
    (hi : i ≠ 0) (hd : sig.dir? = some d) :
    (stepBar tp sl cost i row sig st).trades = st.trades ++
      [{ date := row.Date, direction := d, entry_price := row.Open,
         exit_price := row.Close, pips := btBarPips tp sl cost row d }] := by
  unfold stepBar
  rw [if_neg hi, hd]
  cases d <;> rfl

/-- Resolving `btBarPips` on a bar where the stop-loss is reachable. -/
theorem btBarPips_sl (tp sl cost : ℚ) (row : Bar) (d : Dir)
    (h : slReachable sl row d) :
    btBarPips tp sl cost row d = -sl - cost := by
  cases d <;> (unfold slReachable at h; unfold btBarPips; rw [if_pos h])

/-- Resolving `btBarPips` on a bar where only the take-profit is
reachable. -/
theorem btBarPips_tp (tp sl cost : ℚ) (row : Bar) (d : Dir)
    (hsl : ¬ slReachable sl row d) (htp : tpReachable tp row d) :
    btBarPips tp sl cost row d = tp - cost := by
  cases d <;>
    (unfold slReachable at hsl; unfold tpReachable at htp; unfold btBarPips;
      rw [if_neg hsl, if_pos htp])

/-- Resolving `btBarPips` on a bar reaching neither threshold. -/
theorem btBarPips_eod (tp sl cost : ℚ) (row : Bar) (d : Dir)
    (hsl : ¬ slReachable sl row d) (htp : ¬ tpReachable tp row d) :
    btBarPips tp sl cost row d = eodPips cost row d := by
  cases d <;>
    (unfold slReachable at hsl; unfold tpReachable at htp;
      unfold btBarPips eodPips; rw [if_neg hsl, if_neg htp])

/-- Projection of `backtest_strategy` onto the loop. -/
theorem backtest_strategy_run (df : List Bar) (sigs : List Signal)
    (tp sl cost init : ℚ) :
    backtest_strategy df sigs tp sl cost init =
      { trades := (btLoop tp sl cost sigs 0 df (initState Trade init)).trades,
        equity_curve :=
          (btLoop tp sl cost sigs 0 df (initState Trade init)).equity_curve } := rfl

/-- Projection of `backtest_strategy_no_sl` onto the loop. -/
theorem backtest_strategy_no_sl_run (df : List Bar) (sigs : List Signal)
    (tp cost init : ℚ) :
    backtest_strategy_no_sl df sigs tp cost init =
      { trades := (noslLoop tp cost sigs 0 df (initState TradeNoSL init)).trades,
        equity_curve :=
          (noslLoop tp cost sigs 0 df (initState TradeNoSL init)).equity_curve } := rfl

/-- Trades of `backtest_dual_market_open` come from the loop alone; the
post-loop closing block vanishes because the loop keeps the no-open-
position invariant. -/
theorem backtest_dual_market_open_trades (df : List Bar) (rows : List SignalRow)
    (tp cost init : ℚ) :
    (backtest_dual_market_open df rows tp cost init).trades =
      (dualLoop tp cost rows 0 df (initDualState init)).trades := by
  show (dualFinalBlock cost df (dualLoop tp cost rows 0 df (initDualState init))).trades = _
  rw [dualFinalBlock_none cost df _ (dualLoop_pos tp cost rows df 0 _ rfl)]

/-- The equity curve of `backtest_dual_market_open` comes from the loop
alone, for the same reason. -/
theorem backtest_dual_market_open_curve (df : List Bar) (rows : List SignalRow)
    (tp cost init : ℚ) :
    (backtest_dual_market_open df rows tp cost init).equity_curve =
      (dualLoop tp cost rows 0 df (initDualState init)).equity_curve := by
  show (dualFinalBlock cost df (dualLoop tp cost rows 0 df (initDualState init))).equity_curve = _
  rw [dualFinalBlock_none cost df _ (dualLoop_pos tp cost rows df 0 _ rfl)]

/-- C1: in `backtest_strategy`, a directional non-first bar on which both
the take-profit and the stop-loss threshold are reachable (for a long,
`low ≤ sl_price` and `high ≥ tp_price`; mirrored for a short) resolves to
the stop-loss outcome: the bar's trade realizes
`-stop_loss_pips - cost_per_trade_pips` pips, never the take-profit
outcome. -/
theorem tie_break_sl_first (tp sl cost init : ℚ) (sigs : List Signal)
    (pre : List Bar) (bar : Bar) (d : Dir)
    (hpre : pre ≠ [])
    (hd : (sigAt sigs pre.length).dir? = some d)
    (hsl : slReachable sl bar d)
    (htp : tpReachable tp bar d) :
    ((backtest_strategy (pre ++ [bar]) sigs tp sl cost init).trades =
      (backtest_strategy pre sigs tp sl cost init).trades ++
        [{ date := bar.Date, direction := d, entry_price := bar.Open,
           exit_price := bar.Close, pips := -sl - cost }]) ∧
    ∀ post, ∃ rest,
      (backtest_strategy (pre ++ bar :: post) sigs tp sl cost init).trades =
        (backtest_strategy pre sigs tp sl cost init).trades ++
          ({ date := bar.Date, direction := d, entry_price := bar.Open,
             exit_price := bar.Close, pips := -sl - cost } : Trade) :: rest := by
  have hlen : pre.length ≠ 0 := fun h => hpre (List.length_eq_zero.mp h)
  have hstep : ∀ st : EngineState Trade,
      (stepBar tp sl cost pre.length bar (sigAt sigs pre.length) st).trades =
        st.trades ++
          [{ date := bar.Date, direction := d, entry_price := bar.Open,
             exit_price := bar.Close, pips := -sl - cost }] := by
    intro st
    rw [stepBar_trades_eval tp sl cost pre.length bar _ d st hlen hd,
      btBarPips_sl tp sl cost bar d hsl]
  constructor
  · rw [backtest_strategy_run, backtest_strategy_run,
      btLoop_cons_split tp sl cost sigs pre [] bar 0, Nat.zero_add]
    exact hstep _
  · intro post
    rw [backtest_strategy_run, backtest_strategy_run,
      btLoop_cons_split tp sl cost sigs pre post bar 0, Nat.zero_add]
    obtain ⟨rest, hrest⟩ := btLoop_trades_mono tp sl cost sigs post (pre.length + 1)
      (stepBar tp sl cost pre.length bar (sigAt sigs pre.length)
        (btLoop tp sl cost sigs 0 pre (initState Trade init)))
    refine ⟨rest, ?_⟩
    rw [hrest, hstep, List.append_assoc]
    rfl

/-- Witness for `tie_break_sl_first`: a concrete long bar reaching both
thresholds (`tp = 10`, `sl = 20`, cost 2) yields the stop-loss trade with
`-22` pips. -/
theorem tie_break_sl_first_witness :
    (backtest_strategy [wBar0, wBarBoth] wSigsLong 10 20 2 10000).trades =
      (backtest_strategy [wBar0] wSigsLong 10 20 2 10000).trades ++
        [{ date := 1, direction := Dir.long, entry_price := 1.16,
           exit_price := 1.1610, pips := -20 - 2 }] := by
  have h := (tie_break_sl_first 10 20 2 10000 wSigsLong [wBar0] wBarBoth Dir.long
    (by decide) (by decide)
    (by norm_num [wBarBoth, slReachable, pips_to_price])
    (by norm_num [wBarBoth, tpReachable, pips_to_price])).1
  exact h


/-! ### Pointwise evaluation of the dual-session blocks -/

theorem dualStep_comp (tp cost : ℚ) (i : ℕ) (row : Bar) (sr : SignalRow)
    (st : DualState) (hi : i ≠ 0) :
    dualStep tp cost i row sr st =
      { (eodBlock cost row (usTpBlock tp cost row (usEntryBlock i row sr
          (eurTpBlock tp cost row (eurEntryBlock i row sr st))))) with
        equity_curve :=
          (eodBlock cost row (usTpBlock tp cost row (usEntryBlock i row sr
            (eurTpBlock tp cost row (eurEntryBlock i row sr st))))).equity_curve ++
          [(eodBlock cost row (usTpBlock tp cost row (usEntryBlock i row sr
            (eurTpBlock tp cost row (eurEntryBlock i row sr st))))).current_equity] } := by
  unfold dualStep
  rw [if_neg hi]

theorem eurEntryBlock_eval (i : ℕ) (row : Bar) (sr : SignalRow)
    (st : DualState) (d : Dir) (p : ℚ)
    (hd : sr.eur_signal.dir? = some d) (hp : sr.eur_open_price = some p)
    (hpos : st.open_position = none) :
    eurEntryBlock i row sr st =
      { st with open_position := some (Position.mk d p Session.eur row.Date i) } := by
  unfold eurEntryBlock
  rw [hd, hp, hpos]

theorem eurTpBlock_nohit (tp cost : ℚ) (row : Bar) (st : DualState)
    (pos : Position) (hpos : st.open_position = some pos)
    (he : pos.entry_time = Session.eur)
    (hh : tpHitCheck tp row pos = false) :
    eurTpBlock tp cost row st = st := by
  unfold eurTpBlock
  rw [hpos]
  simp [he, hh]

theorem eurTpBlock_hit (tp cost : ℚ) (row : Bar) (st : DualState)
    (pos : Position) (hpos : st.open_position = some pos)
    (he : pos.entry_time = Session.eur)
    (hh : tpHitCheck tp row pos = true) :
    eurTpBlock tp cost row st = closeTpBlock tp cost pos st := by
  unfold eurTpBlock
  rw [hpos]
  simp [he, hh]

theorem usEntryBlock_skip (i : ℕ) (row : Bar) (sr : SignalRow)
    (st : DualState) (pos : Position) (hpos : st.open_position = some pos) :
    usEntryBlock i row sr st = st := by
  unfold usEntryBlock
  rw [hpos]

theorem usEntryBlock_eval (i : ℕ) (row : Bar) (sr : SignalRow)
    (st : DualState) (d : Dir) (p : ℚ)
    (hd : sr.us_signal.dir? = some d) (hp : sr.us_open_price = some p)
    (hpos : st.open_position = none) :
    usEntryBlock i row sr st =
      { st with open_position := some (Position.mk d p Session.us row.Date i) } := by
  unfold usEntryBlock
  rw [hpos, hd, hp]

theorem usTpBlock_skip_eur (tp cost : ℚ) (row : Bar) (st : DualState)
    (pos : Position) (hpos : st.open_position = some pos)
    (he : pos.entry_time = Session.eur) :
    usTpBlock tp cost row st = st := by
  unfold usTpBlock
  rw [hpos]
  simp [he]

theorem usTpBlock_nohit (tp cost : ℚ) (row : Bar) (st : DualState)
    (pos : Position) (hpos : st.open_position = some pos)
    (he : pos.entry_time = Session.us)
    (hh : tpHitCheck tp row pos = false) :
    usTpBlock tp cost row st = st := by
  unfold usTpBlock
  rw [hpos]
  simp [he, hh]

theorem usTpBlock_hit (tp cost : ℚ) (row : Bar) (st : DualState)
    (pos : Position) (hpos : st.open_position = some pos)
    (he : pos.entry_time = Session.us)
    (hh : tpHitCheck tp row pos = true) :
    usTpBlock tp cost row st = closeTpBlock tp cost pos st := by
  unfold usTpBlock
  rw [hpos]
  simp [he, hh]

theorem eodBlock_none (cost : ℚ) (row : Bar) (st : DualState)
    (hpos : st.open_position = none) : eodBlock cost row st = st := by
  unfold eodBlock
  rw [hpos]

theorem eodBlock_eval (cost : ℚ) (row : Bar) (st : DualState)
    (pos : Position) (hpos : st.open_position = some pos) :
    eodBlock cost row st =
      { trades := st.trades ++
          [{ date := pos.entry_date, direction := pos.direction,
             entry_price := pos.entry_price, exit_price := row.Close,
             exit_reason := ExitReason.EOD, session := pos.entry_time,
             pips := dualEodPips cost row pos, tp_hit := false }],
        equity_curve := st.equity_curve,
        current_equity := st.current_equity + dualEodPips cost row pos * 10,
        open_position := none } := by
  unfold eodBlock dualEodPips
  rw [hpos]

theorem closeTpBlock_eval (tp cost : ℚ) (pos : Position) (st : DualState) :
    closeTpBlock tp cost pos st =
      { trades := st.trades ++
          [{ date := pos.entry_date, direction := pos.direction,
             entry_price := pos.entry_price, exit_price := tpExitPrice tp pos,
             exit_reason := ExitReason.TP, session := pos.entry_time,
             pips := tp - cost, tp_hit := true }],
        equity_curve := st.equity_curve,
        current_equity := st.current_equity + (tp - cost) * 10,
        open_position := none } := by
  unfold closeTpBlock tpExitPrice
  rfl

/-- C2: in `backtest_dual_market_open`, on a non-first bar where both
session signals are directional, the EUR entry has a valid price, and the
EUR-originated position never reaches its take-profit (the bar high stays
below the TP price for a long, mirrored for a short), exactly one trade
is recorded for that bar — the EUR-session trade closed with
`exit_reason = 'EOD'` — and the US signal opens no position. -/
theorem dual_single_position_eod (tp cost init : ℚ) (rows : List SignalRow)
    (pre : List Bar) (bar : Bar) (d du : Dir) (p : ℚ)
    (hpre : pre ≠ [])
    (hd : (srAt rows pre.length).eur_signal.dir? = some d)
    (hp : (srAt rows pre.length).eur_open_price = some p)
    (hus : (srAt rows pre.length).us_signal.dir? = some du)
    (hnotp : tpHitCheck tp bar (Position.mk d p Session.eur bar.Date pre.length) = false) :
    ((backtest_dual_market_open (pre ++ [bar]) rows tp cost init).trades =
      (backtest_dual_market_open pre rows tp cost init).trades ++
        [{ date := bar.Date, direction := d, entry_price := p,
           exit_price := bar.Close, exit_reason := ExitReason.EOD,
           session := Session.eur,
           pips := dualEodPips cost bar (Position.mk d p Session.eur bar.Date pre.length),
           tp_hit := false }]) ∧
    ∀ post, ∃ rest,
      (backtest_dual_market_open (pre ++ bar :: post) rows tp cost init).trades =
        (backtest_dual_market_open pre rows tp cost init).trades ++
          ({ date := bar.Date, direction := d, entry_price := p,
             exit_price := bar.Close, exit_reason := ExitReason.EOD,
             session := Session.eur,
             pips := dualEodPips cost bar (Position.mk d p Session.eur bar.Date pre.length),
             tp_hit := false } : TradeDual) :: rest := by
  have hlen : pre.length ≠ 0 := fun h => hpre (List.length_eq_zero.mp h)
  have hstep : ∀ M : DualState, M.open_position = none →
      (dualStep tp cost pre.length bar (srAt rows pre.length) M).trades =
        M.trades ++
          [{ date := bar.Date, direction := d, entry_price := p,
             exit_price := bar.Close, exit_reason := ExitReason.EOD,
             session := Session.eur,
             pips := dualEodPips cost bar (Position.mk d p Session.eur bar.Date pre.length),
             tp_hit := false }] := by
    intro M hM
    rw [dualStep_comp tp cost pre.length bar (srAt rows pre.length) M hlen,
      eurEntryBlock_eval pre.length bar (srAt rows pre.length) M d p hd hp hM,
      eurTpBlock_nohit tp cost bar _ (Position.mk d p Session.eur bar.Date pre.length)
        rfl rfl hnotp,
      usEntryBlock_skip pre.length bar (srAt rows pre.length) _
        (Position.mk d p Session.eur bar.Date pre.length) rfl,
      usTpBlock_skip_eur tp cost bar _
        (Position.mk d p Session.eur bar.Date pre.length) rfl rfl,
      eodBlock_eval cost bar _
        (Position.mk d p Session.eur bar.Date pre.length) rfl]
  have hMpre : (dualLoop tp cost rows 0 pre (initDualState init)).open_position = none :=
    dualLoop_pos tp cost rows pre 0 (initDualState init) rfl
  constructor
  · rw [backtest_dual_market_open_trades, backtest_dual_market_open_trades,
      dualLoop_cons_split tp cost rows pre [] bar 0, Nat.zero_add]
    exact hstep _ hMpre
  · intro post
    rw [backtest_dual_market_open_trades, backtest_dual_market_open_trades,
      dualLoop_cons_split tp cost rows pre post bar 0, Nat.zero_add]
    have hstepped : (dualStep tp cost pre.length bar (srAt rows pre.length)
        (dualLoop tp cost rows 0 pre (initDualState init))).open_position = none := by
      obtain ⟨-, -, -, -, -, hp2, -⟩ := dualStep_shape tp cost pre.length bar
        (srAt rows pre.length) (dualLoop tp cost rows 0 pre (initDualState init)) hMpre
      exact hp2
    obtain ⟨rest, hrest⟩ := dualLoop_trades_mono tp cost rows post (pre.length + 1)
      (dualStep tp cost pre.length bar (srAt rows pre.length)
        (dualLoop tp cost rows 0 pre (initDualState init))) hstepped
    refine ⟨rest, ?_⟩
    rw [hrest, hstep _ hMpre, List.append_assoc]
    rfl

/-- Witness for `dual_single_position_eod`: with `tp = 1000` the EUR long
opened at `1.16` never hits TP on the bar, so the bar yields exactly the
single EUR EOD trade even though the US signal is directional. -/
theorem dual_single_position_eod_witness :
    (backtest_dual_market_open [wBar0, wBarTp] wRowsDual 1000 2 10000).trades =
      (backtest_dual_market_open [wBar0] wRowsDual 1000 2 10000).trades ++
        [{ date := 1, direction := Dir.long, entry_price := 1.16,
           exit_price := 1.1612, exit_reason := ExitReason.EOD,
           session := Session.eur,
           pips := dualEodPips 2 wBarTp (Position.mk Dir.long 1.16 Session.eur 1 1),
           tp_hit := false }] := by
  have h := (dual_single_position_eod 1000 2 10000 wRowsDual [wBar0] wBarTp
    Dir.long Dir.short 1.16 (by decide) (by decide) (by rfl) (by decide)
    (by norm_num [tpHitCheck, wBarTp, pips_to_price])).1
  exact h

/-- C5: in `backtest_dual_market_open`, on a non-first bar where the
EUR-originated position hits its take-profit (the bar high reaches the
EUR entry plus the TP distance for a long, mirrored for a short) and the
US signal is directional with a valid US open price, exactly two trades
are recorded for that bar: the first tagged session EUR with
`exit_reason = 'TP'`, the second tagged session US. -/
theorem dual_two_trades_when_eur_tp (tp cost init : ℚ) (rows : List SignalRow)
    (pre : List Bar) (bar : Bar) (d du : Dir) (p q : ℚ)
    (hpre : pre ≠ [])
    (hd : (srAt rows pre.length).eur_signal.dir? = some d)
    (hp : (srAt rows pre.length).eur_open_price = some p)
    (hhit : tpHitCheck tp bar (Position.mk d p Session.eur bar.Date pre.length) = true)
    (hud : (srAt rows pre.length).us_signal.dir? = some du)
    (hup : (srAt rows pre.length).us_open_price = some q) :
    ∃ t2 : TradeDual, t2.session = Session.us ∧
      ((backtest_dual_market_open (pre ++ [bar]) rows tp cost init).trades =
        (backtest_dual_market_open pre rows tp cost init).trades ++
          [{ date := bar.Date, direction := d, entry_price := p,
             exit_price := tpExitPrice tp (Position.mk d p Session.eur bar.Date pre.length),
             exit_reason := ExitReason.TP, session := Session.eur,
             pips := tp - cost, tp_hit := true }, t2]) ∧
      ∀ post, ∃ rest,
        (backtest_dual_market_open (pre ++ bar :: post) rows tp cost init).trades =
          (backtest_dual_market_open pre rows tp cost init).trades ++
            ({ date := bar.Date, direction := d, entry_price := p,
               exit_price := tpExitPrice tp (Position.mk d p Session.eur bar.Date pre.length),
               exit_reason := ExitReason.TP, session := Session.eur,
               pips := tp - cost, tp_hit := true } : TradeDual) :: t2 :: rest := by
  have hlen : pre.length ≠ 0 := fun h => hpre (List.length_eq_zero.mp h)
  have hstep : ∃ t2 : TradeDual, t2.session = Session.us ∧
      ∀ M : DualState, M.open_position = none →
      (dualStep tp cost pre.length bar (srAt rows pre.length) M).trades =
        M.trades ++
          [{ date := bar.Date, direction := d, entry_price := p,
             exit_price := tpExitPrice tp (Position.mk d p Session.eur bar.Date pre.length),
             exit_reason := ExitReason.TP, session := Session.eur,
             pips := tp - cost, tp_hit := true }, t2] := by
    cases hus : tpHitCheck tp bar (Position.mk du q Session.us bar.Date pre.length) with
    | true =>
      refine ⟨{ date := bar.Date, direction := du, entry_price := q,
                exit_price :=
                  tpExitPrice tp (Position.mk du q Session.us bar.Date pre.length),
                exit_reason := ExitReason.TP, session := Session.us,
                pips := tp - cost, tp_hit := true }, rfl, ?_⟩
      intro M hM
      rw [dualStep_comp tp cost pre.length bar (srAt rows pre.length) M hlen,
        eurEntryBlock_eval pre.length bar (srAt rows pre.length) M d p hd hp hM,
        eurTpBlock_hit tp cost bar _ (Position.mk d p Session.eur bar.Date pre.length)
          rfl rfl hhit,
        closeTpBlock_eval tp cost (Position.mk d p Session.eur bar.Date pre.length) _,
        usEntryBlock_eval pre.length bar (srAt rows pre.length) _ du q hud hup rfl,
        usTpBlock_hit tp cost bar _ (Position.mk du q Session.us bar.Date pre.length)
          rfl rfl hus,
        closeTpBlock_eval tp cost (Position.mk du q Session.us bar.Date pre.length) _,
        eodBlock_none cost bar _ rfl]
      simp
    | false =>
      refine ⟨{ date := bar.Date, direction := du, entry_price := q,
                exit_price := bar.Close, exit_reason := ExitReason.EOD,
                session := Session.us,
                pips :=
                  dualEodPips cost bar (Position.mk du q Session.us bar.Date pre.length),
                tp_hit := false }, rfl, ?_⟩
      intro M hM
      rw [dualStep_comp tp cost pre.length bar (srAt rows pre.length) M hlen,
        eurEntryBlock_eval pre.length bar (srAt rows pre.length) M d p hd hp hM,
        eurTpBlock_hit tp cost bar _ (Position.mk d p Session.eur bar.Date pre.length)
          rfl rfl hhit,
        closeTpBlock_eval tp cost (Position.mk d p Session.eur bar.Date pre.length) _,
        usEntryBlock_eval pre.length bar (srAt rows pre.length) _ du q hud hup rfl,
        usTpBlock_nohit tp cost bar _ (Position.mk du q Session.us bar.Date pre.length)
          rfl rfl hus,
        eodBlock_eval cost bar _ (Position.mk du q Session.us bar.Date pre.length) rfl]
      simp
  obtain ⟨t2, hsess, hstep⟩ := hstep
  have hMpre : (dualLoop tp cost rows 0 pre (initDualState init)).open_position = none :=
    dualLoop_pos tp cost rows pre 0 (initDualState init) rfl
  refine ⟨t2, hsess, ?_, ?_⟩
  · rw [backtest_dual_market_open_trades, backtest_dual_market_open_trades,
      dualLoop_cons_split tp cost rows pre [] bar 0, Nat.zero_add]
    exact hstep _ hMpre
  · intro post
    rw [backtest_dual_market_open_trades, backtest_dual_market_open_trades,
      dualLoop_cons_split tp cost rows pre post bar 0, Nat.zero_add]
    have hstepped : (dualStep tp cost pre.length bar (srAt rows pre.length)
        (dualLoop tp cost rows 0 pre (initDualState init))).open_position = none := by
      obtain ⟨-, -, -, -, -, hp2, -⟩ := dualStep_shape tp cost pre.length bar
        (srAt rows pre.length) (dualLoop tp cost rows 0 pre (initDualState init)) hMpre
      exact hp2
    obtain ⟨rest, hrest⟩ := dualLoop_trades_mono tp cost rows post (pre.length + 1)
      (dualStep tp cost pre.length bar (srAt rows pre.length)
        (dualLoop tp cost rows 0 pre (initDualState init))) hstepped
    refine ⟨rest, ?_⟩
    rw [hrest, hstep _ hMpre, List.append_assoc]
    rfl

/-- Witness for `dual_two_trades_when_eur_tp`: with `tp = 10` the EUR long
at `1.16` takes profit on the bar and the US short at `1.17` opens and
closes on the same bar: two trades, EUR-TP first, then a US trade. -/
theorem dual_two_trades_when_eur_tp_witness :
    ∃ t2 : TradeDual, t2.session = Session.us ∧
      (backtest_dual_market_open [wBar0, wBarTp] wRowsDual 10 2 10000).trades =
        (backtest_dual_market_open [wBar0] wRowsDual 10 2 10000).trades ++
          [{ date := 1, direction := Dir.long, entry_price := 1.16,
             exit_price := tpExitPrice 10 (Position.mk Dir.long 1.16 Session.eur 1 1),
             exit_reason := ExitReason.TP, session := Session.eur,
             pips := 10 - 2, tp_hit := true }, t2] := by
  obtain ⟨t2, hsess, h1, -⟩ := dual_two_trades_when_eur_tp 10 2 10000 wRowsDual
    [wBar0] wBarTp Dir.long Dir.short 1.16 1.17 (by decide) (by decide) (by rfl)
    (by norm_num [tpHitCheck, wBarTp, pips_to_price]) (by decide) (by rfl)
  exact ⟨t2, hsess, h1⟩

/-! ### Per-trade structure of the TP-only engine -/

/-- Evaluating one directional, non-index-0 iteration of
`backtest_strategy_no_sl`: the appended trade is `noslBarTrade`. -/
theorem stepBarNoSL_trades_eval (tp cost : ℚ) (i : ℕ) (row : Bar)
    (sig : Signal) (d : Dir) (st : EngineState TradeNoSL)
    (hi : i ≠ 0) (hd : sig.dir? = some d) :
    (stepBarNoSL tp cost i row sig st).trades =
      st.trades ++ [noslBarTrade tp cost row d] := by
  cases d with
  | long =>
    by_cases hc : row.High ≥ row.Open + pips_to_price tp <;>
      simp [stepBarNoSL, noslBarTrade, hd, hi, hc]
  | short =>
    by_cases hc : row.Low ≤ row.Open - pips_to_price tp <;>
      simp [stepBarNoSL, noslBarTrade, hd, hi, hc]

/-- Membership in the trades of one `backtest_strategy_no_sl` iteration. -/
theorem stepBarNoSL_mem (tp cost : ℚ) (i : ℕ) (row : Bar) (sig : Signal)
    (st : EngineState TradeNoSL) (t : TradeNoSL)
    (ht : t ∈ (stepBarNoSL tp cost i row sig st).trades) :
    t ∈ st.trades ∨ ∃ d, t = noslBarTrade tp cost row d := by
  by_cases hi : i = 0
  · subst hi
    exact Or.inl ht
  · cases hd : sig.dir? with
    | none =>
      have hnone : (stepBarNoSL tp cost i row sig st).trades = st.trades := by
        unfold stepBarNoSL
        rw [if_neg hi, hd]
      rw [hnone] at ht
      exact Or.inl ht
    | some d =>
      rw [stepBarNoSL_trades_eval tp cost i row sig d st hi hd] at ht
      rcases List.mem_append.mp ht with h | h
      · exact Or.inl h
      · exact Or.inr ⟨d, by simpa using h⟩

/-- Every trade of a `backtest_strategy_no_sl` loop run either was
already present or is the `noslBarTrade` of one of the processed bars. -/
theorem noslLoop_trades_mem (tp cost : ℚ) (sigs : List Signal)
    (l : List Bar) (i : ℕ) (st : EngineState TradeNoSL) (t : TradeNoSL)
    (ht : t ∈ (noslLoop tp cost sigs i l st).trades) :
    t ∈ st.trades ∨ ∃ row d, row ∈ l ∧ t = noslBarTrade tp cost row d := by
  induction l generalizing i st with
  | nil => exact Or.inl ht
  | cons b rest ih =>
    rw [noslLoop] at ht
    rcases ih (i + 1) (stepBarNoSL tp cost i b (sigAt sigs i) st) ht with h | h
    · rcases stepBarNoSL_mem tp cost i b (sigAt sigs i) st t h with h2 | ⟨d, h2⟩
      · exact Or.inl h2
      · exact Or.inr ⟨b, d, List.mem_cons_self b rest, h2⟩
    · obtain ⟨row, d, hrow, heq⟩ := h
      exact Or.inr ⟨row, d, List.mem_cons_of_mem b hrow, heq⟩

/-- The pips recorded by `noslBarTrade` agree with its exit reason:
`tp - cost` on a TP exit, recorded-price signed difference minus cost on
an EOD exit. -/
theorem noslBarTrade_pips (tp cost : ℚ) (row : Bar) (d : Dir) :
    ((noslBarTrade tp cost row d).exit_reason = ExitReason.TP →
      (noslBarTrade tp cost row d).pips = tp - cost) ∧
    ((noslBarTrade tp cost row d).exit_reason = ExitReason.EOD →
      (noslBarTrade tp cost row d).pips =
        tradePipsFromPrices cost (noslBarTrade tp cost row d).entry_price
          (noslBarTrade tp cost row d).exit_price
          (noslBarTrade tp cost row d).direction) := by
  cases d with
  | long =>
    by_cases hc : row.High ≥ row.Open + pips_to_price tp
    · refine ⟨fun _ => ?_, fun h => ?_⟩
      · simp [noslBarTrade, hc]
      · exfalso
        simp [noslBarTrade, hc] at h
    · refine ⟨fun h => ?_, fun _ => ?_⟩
      · exfalso
        simp [noslBarTrade, hc] at h
      · simp [noslBarTrade, hc, tradePipsFromPrices]
  | short =>
    by_cases hc : row.Low ≤ row.Open - pips_to_price tp
    · refine ⟨fun _ => ?_, fun h => ?_⟩
      · simp [noslBarTrade, hc]
      · exfalso
        simp [noslBarTrade, hc] at h
    · refine ⟨fun h => ?_, fun _ => ?_⟩
      · exfalso
        simp [noslBarTrade, hc] at h
      · simp [noslBarTrade, hc, tradePipsFromPrices]

/-- C3: realized pips. In `backtest_strategy` a directional non-first bar
records `btBarPips`, which resolves to `take_profit_pips - cost` on a
take-profit exit, `-stop_loss_pips - cost` on a stop-loss exit, and the
signed close-vs-entry pip difference minus cost on an end-of-day exit; in
`backtest_strategy_no_sl` every recorded trade realizes `tp - cost` when
its `exit_reason` is `'TP'` and the signed recorded-price difference in
pips minus cost when it is `'EOD'`. -/
theorem trade_pips_formulas (tp sl cost init : ℚ) (sigs sigs2 : List Signal)
    (pre df2 : List Bar) (bar : Bar) (d : Dir)
    (hpre : pre ≠ [])
    (hd : (sigAt sigs pre.length).dir? = some d) :
    ((backtest_strategy (pre ++ [bar]) sigs tp sl cost init).trades =
      (backtest_strategy pre sigs tp sl cost init).trades ++
        [{ date := bar.Date, direction := d, entry_price := bar.Open,
           exit_price := bar.Close, pips := btBarPips tp sl cost bar d }]) ∧
    (slReachable sl bar d → btBarPips tp sl cost bar d = -sl - cost) ∧
    (¬ slReachable sl bar d → tpReachable tp bar d →
      btBarPips tp sl cost bar d = tp - cost) ∧
    (¬ slReachable sl bar d → ¬ tpReachable tp bar d →
      btBarPips tp sl cost bar d = eodPips cost bar d) ∧
    (∀ t : TradeNoSL,
      t ∈ (backtest_strategy_no_sl df2 sigs2 tp cost init).trades →
      (t.exit_reason = ExitReason.TP → t.pips = tp - cost) ∧
      (t.exit_reason = ExitReason.EOD → t.pips =
        tradePipsFromPrices cost t.entry_price t.exit_price t.direction)) := by
  have hlen : pre.length ≠ 0 := fun h => hpre (List.length_eq_zero.mp h)
  refine ⟨?_, fun h => btBarPips_sl tp sl cost bar d h,
    fun h1 h2 => btBarPips_tp tp sl cost bar d h1 h2,
    fun h1 h2 => btBarPips_eod tp sl cost bar d h1 h2, ?_⟩
  · rw [backtest_strategy_run, backtest_strategy_run,
      btLoop_cons_split tp sl cost sigs pre [] bar 0, Nat.zero_add]
    exact stepBar_trades_eval tp sl cost pre.length bar _ d _ hlen hd
  · intro t ht
    rw [backtest_strategy_no_sl_run] at ht
    rcases noslLoop_trades_mem tp cost sigs2 df2 0 (initState TradeNoSL init) t ht
      with h | ⟨row, d2, -, heq⟩
    · exact absurd h (List.not_mem_nil t)
    · rw [heq]
      exact noslBarTrade_pips tp cost row d2

/-- Witness for `trade_pips_formulas`: a concrete directional bar of
`backtest_strategy` records exactly the `btBarPips` trade. -/
theorem trade_pips_formulas_witness :
    (backtest_strategy [wBar0, wBarEod] wSigsLong 10 20 2 10000).trades =
      (backtest_strategy [wBar0] wSigsLong 10 20 2 10000).trades ++
        [{ date := 1, direction := Dir.long, entry_price := 1.16,
           exit_price := 1.1602, pips := btBarPips 10 20 2 wBarEod Dir.long }] := by
  exact (trade_pips_formulas 10 20 2 10000 wSigsLong wSigsLong [wBar0] [wBar0]
    wBarEod Dir.long (by decide) (by decide)).1

/-- C4: the equity curve has exactly one point per input bar in all three
engines, and a bar that records no trade repeats the previous bar's
equity value. -/
theorem equity_curve_per_bar (tp sl cost init : ℚ) (sigs : List Signal)
    (rows : List SignalRow) (df pre : List Bar) (bar : Bar)
    (hpre : pre ≠ []) :
    ((backtest_strategy df sigs tp sl cost init).equity_curve.length = df.length) ∧
    ((backtest_strategy_no_sl df sigs tp cost init).equity_curve.length = df.length) ∧
    ((backtest_dual_market_open df rows tp cost init).equity_curve.length = df.length) ∧
    ((backtest_strategy (pre ++ [bar]) sigs tp sl cost init).trades =
        (backtest_strategy pre sigs tp sl cost init).trades →
      (backtest_strategy (pre ++ [bar]) sigs tp sl cost init).equity_curve =
        (backtest_strategy pre sigs tp sl cost init).equity_curve ++
          [(backtest_strategy pre sigs tp sl cost init).equity_curve.getLastD 0]) ∧
    ((backtest_strategy_no_sl (pre ++ [bar]) sigs tp cost init).trades =
        (backtest_strategy_no_sl pre sigs tp cost init).trades →
      (backtest_strategy_no_sl (pre ++ [bar]) sigs tp cost init).equity_curve =
        (backtest_strategy_no_sl pre sigs tp cost init).equity_curve ++
          [(backtest_strategy_no_sl pre sigs tp cost init).equity_curve.getLastD 0]) ∧
    ((backtest_dual_market_open (pre ++ [bar]) rows tp cost init).trades =
        (backtest_dual_market_open pre rows tp cost init).trades →
      (backtest_dual_market_open (pre ++ [bar]) rows tp cost init).equity_curve =
        (backtest_dual_market_open pre rows tp cost init).equity_curve ++
          [(backtest_dual_market_open pre rows tp cost init).equity_curve.getLastD 0]) := by
  refine ⟨?_, ?_, ?_, ?_, ?_, ?_⟩
  · obtain ⟨r, hr, hlen⟩ := btLoop_curve_mono tp sl cost sigs df 0 (initState Trade init)
    have h := congrArg List.length hr
    simp [initState, hlen] at h
    exact h
  · obtain ⟨r, hr, hlen⟩ := noslLoop_curve_mono tp cost sigs df 0 (initState TradeNoSL init)
    have h := congrArg List.length hr
    simp [initState, hlen] at h
    exact h
  · obtain ⟨r, hr, hlen⟩ := dualLoop_curve_mono tp cost rows df 0 (initDualState init) rfl
    have h := congrArg List.length hr
    simp [initDualState, hlen] at h
    rw [backtest_dual_market_open_curve]
    exact h
  · intro h
    have hsplit : btLoop tp sl cost sigs 0 (pre ++ [bar]) (initState Trade init) =
        stepBar tp sl cost pre.length bar (sigAt sigs pre.length)
          (btLoop tp sl cost sigs 0 pre (initState Trade init)) := by
      rw [btLoop_cons_split tp sl cost sigs pre [] bar 0, Nat.zero_add]
      rfl
    have h2 : (btLoop tp sl cost sigs 0 (pre ++ [bar]) (initState Trade init)).trades =
        (btLoop tp sl cost sigs 0 pre (initState Trade init)).trades := h
    rw [hsplit] at h2
    have hcurve := stepBar_no_trade tp sl cost pre.length bar (sigAt sigs pre.length)
      (btLoop tp sl cost sigs 0 pre (initState Trade init)) h2
    have hlast := btLoop_last tp sl cost sigs pre 0 (initState Trade init) hpre
    have hgl : (btLoop tp sl cost sigs 0 pre (initState Trade init)).equity_curve.getLastD 0 =
        (btLoop tp sl cost sigs 0 pre (initState Trade init)).current_equity := by
      rw [List.getLastD_eq_getLast?, hlast]
      rfl
    show (btLoop tp sl cost sigs 0 (pre ++ [bar]) (initState Trade init)).equity_curve =
      (btLoop tp sl cost sigs 0 pre (initState Trade init)).equity_curve ++
        [(btLoop tp sl cost sigs 0 pre (initState Trade init)).equity_curve.getLastD 0]
    rw [hsplit, hcurve, hgl]
  · intro h
    have hsplit : noslLoop tp cost sigs 0 (pre ++ [bar]) (initState TradeNoSL init) =
        stepBarNoSL tp cost pre.length bar (sigAt sigs pre.length)
          (noslLoop tp cost sigs 0 pre (initState TradeNoSL init)) := by
      rw [noslLoop_cons_split tp cost sigs pre [] bar 0, Nat.zero_add]
      rfl
    have h2 : (noslLoop tp cost sigs 0 (pre ++ [bar]) (initState TradeNoSL init)).trades =
        (noslLoop tp cost sigs 0 pre (initState TradeNoSL init)).trades := h
    rw [hsplit] at h2
    have hcurve := stepBarNoSL_no_trade tp cost pre.length bar (sigAt sigs pre.length)
      (noslLoop tp cost sigs 0 pre (initState TradeNoSL init)) h2
    have hlast := noslLoop_last tp cost sigs pre 0 (initState TradeNoSL init) hpre
    have hgl : (noslLoop tp cost sigs 0 pre (initState TradeNoSL init)).equity_curve.getLastD 0 =
        (noslLoop tp cost sigs 0 pre (initState TradeNoSL init)).current_equity := by
      rw [List.getLastD_eq_getLast?, hlast]
      rfl
    show (noslLoop tp cost sigs 0 (pre ++ [bar]) (initState TradeNoSL init)).equity_curve =
      (noslLoop tp cost sigs 0 pre (initState TradeNoSL init)).equity_curve ++
        [(noslLoop tp cost sigs 0 pre (initState TradeNoSL init)).equity_curve.getLastD 0]
    rw [hsplit, hcurve, hgl]
  · intro h
    have hMpre : (dualLoop tp cost rows 0 pre (initDualState init)).open_position = none :=
      dualLoop_pos tp cost rows pre 0 (initDualState init) rfl
    have hsplit : dualLoop tp cost rows 0 (pre ++ [bar]) (initDualState init) =
        dualStep tp cost pre.length bar (srAt rows pre.length)
          (dualLoop tp cost rows 0 pre (initDualState init)) := by
      rw [dualLoop_cons_split tp cost rows pre [] bar 0, Nat.zero_add]
      rfl
    have h2 : (dualLoop tp cost rows 0 (pre ++ [bar]) (initDualState init)).trades =
        (dualLoop tp cost rows 0 pre (initDualState init)).trades := by
      rw [← backtest_dual_market_open_trades, ← backtest_dual_market_open_trades]
      exact h
    rw [hsplit] at h2
    have hcurve := dualStep_no_trade tp cost pre.length bar (srAt rows pre.length)
      (dualLoop tp cost rows 0 pre (initDualState init)) hMpre h2
    have hlast := dualLoop_last tp cost rows pre 0 (initDualState init) rfl hpre
    have hgl : (dualLoop tp cost rows 0 pre (initDualState init)).equity_curve.getLastD 0 =
        (dualLoop tp cost rows 0 pre (initDualState init)).current_equity := by
      rw [List.getLastD_eq_getLast?, hlast]
      rfl
    rw [backtest_dual_market_open_curve, backtest_dual_market_open_curve,
      hsplit, hcurve, hgl]

/-- Witness for `equity_curve_per_bar`: two flat-signal bars give a
two-point curve in `backtest_strategy`, and the flat second bar repeats
the previous equity value in `backtest_strategy` and in the dual
engine. -/
theorem equity_curve_per_bar_witness :
    ((backtest_strategy [wBar0, wBarEod] wSigsFlat 10 20 2 10000).equity_curve.length = 2) ∧
    ((backtest_strategy ([wBar0] ++ [wBarEod]) wSigsFlat 10 20 2 10000).equity_curve =
      (backtest_strategy [wBar0] wSigsFlat 10 20 2 10000).equity_curve ++
        [(backtest_strategy [wBar0] wSigsFlat 10 20 2 10000).equity_curve.getLastD 0]) ∧
    ((backtest_dual_market_open ([wBar0] ++ [wBarEod]) [wRowNone, wRowNone] 10 2 10000).equity_curve =
      (backtest_dual_market_open [wBar0] [wRowNone, wRowNone] 10 2 10000).equity_curve ++
        [(backtest_dual_market_open [wBar0] [wRowNone, wRowNone] 10 2 10000).equity_curve.getLastD 0]) := by
  have h := equity_curve_per_bar 10 20 2 10000 wSigsFlat [wRowNone, wRowNone]
    [wBar0, wBarEod] [wBar0] wBarEod (by decide)
  exact ⟨h.1, h.2.2.2.1 (by rfl), h.2.2.2.2.2 (by rfl)⟩

/-! ### The index-0 skip branch of each engine -/

theorem stepBar_zero (tp sl cost : ℚ) (row : Bar) (sig : Signal)
    (st : EngineState Trade) :
    stepBar tp sl cost 0 row sig st =
      { st with equity_curve := st.equity_curve ++ [st.current_equity] } := rfl

theorem stepBarNoSL_zero (tp cost : ℚ) (row : Bar) (sig : Signal)
    (st : EngineState TradeNoSL) :
    stepBarNoSL tp cost 0 row sig st =
      { st with equity_curve := st.equity_curve ++ [st.current_equity] } := rfl

theorem dualStep_zero (tp cost : ℚ) (row : Bar) (sr : SignalRow)
    (st : DualState) :
    dualStep tp cost 0 row sr st =
      { st with equity_curve := st.equity_curve ++ [st.current_equity] } := rfl

/-- C10: in all three engines the bar at index 0 never produces a trade,
even when its signal is directional: the run is insensitive to the entire
content of bar 0, the first equity point equals the initial equity, and a
one-bar series yields no trades at all. -/
theorem first_bar_never_trades (tp sl cost init : ℚ) (sigs : List Signal)
    (rows : List SignalRow) (b b2 : Bar) (rest : List Bar) :
    ((backtest_strategy (b :: rest) sigs tp sl cost init).trades =
      (backtest_strategy (b2 :: rest) sigs tp sl cost init).trades) ∧
    ((backtest_strategy (b :: rest) sigs tp sl cost init).equity_curve.head? =
      some init) ∧
    ((backtest_strategy [b] sigs tp sl cost init).trades = []) ∧
    ((backtest_strategy_no_sl (b :: rest) sigs tp cost init).trades =
      (backtest_strategy_no_sl (b2 :: rest) sigs tp cost init).trades) ∧
    ((backtest_strategy_no_sl (b :: rest) sigs tp cost init).equity_curve.head? =
      some init) ∧
    ((backtest_strategy_no_sl [b] sigs tp cost init).trades = []) ∧
    ((backtest_dual_market_open (b :: rest) rows tp cost init).trades =
      (backtest_dual_market_open (b2 :: rest) rows tp cost init).trades) ∧
    ((backtest_dual_market_open (b :: rest) rows tp cost init).equity_curve.head? =
      some init) ∧
    ((backtest_dual_market_open [b] rows tp cost init).trades = []) := by
  refine ⟨?_, ?_, rfl, ?_, ?_, rfl, ?_, ?_, ?_⟩
  · show (btLoop tp sl cost sigs 1 rest
        (stepBar tp sl cost 0 b (sigAt sigs 0) (initState Trade init))).trades =
      (btLoop tp sl cost sigs 1 rest
        (stepBar tp sl cost 0 b2 (sigAt sigs 0) (initState Trade init))).trades
    rw [stepBar_zero, stepBar_zero]
  · show (btLoop tp sl cost sigs 1 rest
        (stepBar tp sl cost 0 b (sigAt sigs 0) (initState Trade init))).equity_curve.head? =
      some init
    obtain ⟨r, hr, -⟩ := btLoop_curve_mono tp sl cost sigs rest 1
      (stepBar tp sl cost 0 b (sigAt sigs 0) (initState Trade init))
    rw [hr, stepBar_zero]
    rfl
  · show (noslLoop tp cost sigs 1 rest
        (stepBarNoSL tp cost 0 b (sigAt sigs 0) (initState TradeNoSL init))).trades =
      (noslLoop tp cost sigs 1 rest
        (stepBarNoSL tp cost 0 b2 (sigAt sigs 0) (initState TradeNoSL init))).trades
    rw [stepBarNoSL_zero, stepBarNoSL_zero]
  · show (noslLoop tp cost sigs 1 rest
        (stepBarNoSL tp cost 0 b (sigAt sigs 0) (initState TradeNoSL init))).equity_curve.head? =
      some init
    obtain ⟨r, hr, -⟩ := noslLoop_curve_mono tp cost sigs rest 1
      (stepBarNoSL tp cost 0 b (sigAt sigs 0) (initState TradeNoSL init))
    rw [hr, stepBarNoSL_zero]
    rfl
  · rw [backtest_dual_market_open_trades, backtest_dual_market_open_trades]
    show (dualLoop tp cost rows 1 rest
        (dualStep tp cost 0 b (srAt rows 0) (initDualState init))).trades =
      (dualLoop tp cost rows 1 rest
        (dualStep tp cost 0 b2 (srAt rows 0) (initDualState init))).trades
    rw [dualStep_zero, dualStep_zero]
  · rw [backtest_dual_market_open_curve]
    show (dualLoop tp cost rows 1 rest
        (dualStep tp cost 0 b (srAt rows 0) (initDualState init))).equity_curve.head? =
      some init
    obtain ⟨r, hr, -⟩ := dualLoop_curve_mono tp cost rows rest 1
      (dualStep tp cost 0 b (srAt rows 0) (initDualState init)) rfl
    rw [hr, dualStep_zero]
    rfl
  · rw [backtest_dual_market_open_trades]
    rfl

/-- C9: degeneracies of the performance aggregator. With at least one
winning trade and no losing trades the profit factor is `np.inf`; with an
empty trade list the profit factor is `0.0` and the win rate `0.0`. The
embedding of `get_summary_stats` is a total function into a type in which
`NaN` is unrepresentable, matching the source guards that keep every
division defined. -/
theorem profit_factor_degeneracy (l curve curve2 : List ℚ)
    (hne : l ≠ []) (hpos : ∀ p ∈ l, 0 < p) :
    ((get_summary_stats l curve).profit_factor = PFloat.inf) ∧
    ((get_summary_stats [] curve2).profit_factor = PFloat.val 0) ∧
    ((get_summary_stats [] curve2).win_rate = 0) := by
  refine ⟨?_, rfl, rfl⟩
  have hfilter : l.filter (fun p => decide (p ≤ 0)) = [] := by
    rw [List.filter_eq_nil_iff]
    intro a ha
    simpa using not_le.mpr (hpos a ha)
  simp [get_summary_stats, hne, hfilter]

/-- Witness for `profit_factor_degeneracy`: a single winning 5-pip trade
gives `np.inf`, the empty trade list gives `0.0` and `0.0`. -/
theorem profit_factor_degeneracy_witness :
    ((get_summary_stats [5] []).profit_factor = PFloat.inf) ∧
    ((get_summary_stats [] []).profit_factor = PFloat.val 0) ∧
    ((get_summary_stats [] []).win_rate = 0) := by
  exact profit_factor_degeneracy [5] [] [] (by decide)
    (by intro p hp; rw [List.mem_singleton] at hp; subst hp; norm_num)

/-- C8 (code bug): `get_summary_stats` reports as `max_drawdown_pips` the
raw drawdown of the equity values — which the engines keep in dollars at
$10 per pip — without dividing by the pip-to-equity multiplier. On the
equity curve `[10000, 10080, 9980]` (produced by trades of `+8` and `-10`
pips) it returns `100`, not the `100 / 10 = 10` pips that the field name,
the specification, and the repository's own `calculate_drawdown.py`
(`Drawdown / 10.0  # Convert to pips`) prescribe. -/
theorem max_drawdown_dollar_units :
    ((get_summary_stats [8, -10] [10000, 10080, 9980]).max_drawdown_pips = 100) ∧
    ((100 : ℚ) ≠ 100 / 10) := by
  constructor
  · have h : ([8, -10] : List ℚ) ≠ [] := by simp
    simp only [get_summary_stats, if_neg h]
    norm_num [drawdownOf, runningMax, runningMaxFrom, listMin, max_def, min_def]
  · norm_num

/-- C6 counterexample: a `backtest_strategy` trade that exits via
take-profit (the bar reaches the TP threshold and not the SL threshold,
and the realized pips are the TP outcome `10 - 2`) records
`exit_price = 1.1612`, the bar close, which differs from the theoretical
TP price `1.16 + pips_to_price 10 = 1.1610`; the `Trade` record of this
engine carries no `exit_reason` field at all. -/
theorem exit_price_not_theoretical :
    ((backtest_strategy [wBar0, wBarTp] wSigsLong 10 20 2 10000).trades =
      [{ date := 1, direction := Dir.long, entry_price := 1.16,
         exit_price := 1.1612, pips := 10 - 2 }]) ∧
    tpReachable 10 wBarTp Dir.long ∧
    ¬ slReachable 20 wBarTp Dir.long ∧
    ((1.1612 : ℚ) ≠ 1.16 + pips_to_price 10) := by
  refine ⟨?_, ?_, ?_, ?_⟩
  · have hstep := stepBar_trades_eval 10 20 2 1 wBarTp (sigAt wSigsLong 1) Dir.long
      (btLoop 10 20 2 wSigsLong 0 [wBar0] (initState Trade 10000))
      (by decide) (by decide)
    have h2 : (btLoop 10 20 2 wSigsLong 0 [wBar0] (initState Trade 10000)).trades ++
        [{ date := wBarTp.Date, direction := Dir.long, entry_price := wBarTp.Open,
           exit_price := wBarTp.Close, pips := btBarPips 10 20 2 wBarTp Dir.long }] =
        [{ date := 1, direction := Dir.long, entry_price := 1.16,
           exit_price := 1.1612, pips := 10 - 2 }] := by
      rw [btBarPips_tp 10 20 2 wBarTp Dir.long
        (by norm_num [slReachable, wBarTp, pips_to_price])
        (by norm_num [tpReachable, wBarTp, pips_to_price])]
      rfl
    exact hstep.trans h2
  · norm_num [tpReachable, wBarTp, pips_to_price]
  · norm_num [slReachable, wBarTp, pips_to_price]
  · norm_num [pips_to_price]

/-- C6 (amended): every trade recorded by `backtest_strategy` — whatever
branch resolved it — has `entry_price` the bar open and `exit_price` the
bar close (the source writes `'exit_price': row['Close']` with the
comment "Approximate, actual depends on TP/SL"), and its `Trade` record
carries no exit-reason field; only the pips encode the outcome. -/
theorem exit_price_is_barclose (tp sl cost init : ℚ) (sigs : List Signal)
    (pre : List Bar) (bar : Bar) (d : Dir)
    (hpre : pre ≠ []) (hd : (sigAt sigs pre.length).dir? = some d) :
    ∃ pips, (backtest_strategy (pre ++ [bar]) sigs tp sl cost init).trades =
      (backtest_strategy pre sigs tp sl cost init).trades ++
        [{ date := bar.Date, direction := d, entry_price := bar.Open,
           exit_price := bar.Close, pips := pips }] := by
  have hlen : pre.length ≠ 0 := fun h => hpre (List.length_eq_zero.mp h)
  refine ⟨btBarPips tp sl cost bar d, ?_⟩
  rw [backtest_strategy_run, backtest_strategy_run,
    btLoop_cons_split tp sl cost sigs pre [] bar 0, Nat.zero_add]
  exact stepBar_trades_eval tp sl cost pre.length bar _ d _ hlen hd

/-- Witness for `exit_price_is_barclose`: the end-of-day bar `wBarEod`
records entry `1.16` (its open) and exit `1.1602` (its close). -/
theorem exit_price_is_barclose_witness :
    ∃ pips, (backtest_strategy [wBar0, wBarEod] wSigsLong 10 20 2 10000).trades =
      (backtest_strategy [wBar0] wSigsLong 10 20 2 10000).trades ++
        [{ date := 1, direction := Dir.long, entry_price := 1.16,
           exit_price := 1.1602, pips := pips }] := by
  exact exit_price_is_barclose 10 20 2 10000 wSigsLong [wBar0] wBarEod Dir.long
    (by decide) (by decide)

/-- C7 counterexample: with `take_profit_pips = 0 ≤ 0`,
`backtest_strategy` performs no configuration check: it processes both
bars (two equity points) and records a trade for the directional bar,
returning a complete `BacktestResult` instead of rejecting the run. -/
theorem no_config_validation_cex :
    ((0 : ℚ) ≤ 0) ∧
    ((backtest_strategy [wBar0, wBarTp] wSigsLong 0 20 2 10000).trades.length = 1) ∧
    ((backtest_strategy [wBar0, wBarTp] wSigsLong 0 20 2 10000).equity_curve.length = 2) := by
  refine ⟨le_refl 0, ?_, ?_⟩
  · have hstep := stepBar_trades_eval 0 20 2 1 wBarTp (sigAt wSigsLong 1) Dir.long
      (btLoop 0 20 2 wSigsLong 0 [wBar0] (initState Trade 10000))
      (by decide) (by decide)
    have h2 : ((btLoop 0 20 2 wSigsLong 0 [wBar0] (initState Trade 10000)).trades ++
        [({ date := wBarTp.Date, direction := Dir.long, entry_price := wBarTp.Open,
            exit_price := wBarTp.Close,
            pips := btBarPips 0 20 2 wBarTp Dir.long } : Trade)]).length = 1 := rfl
    exact (congrArg List.length hstep).trans h2
  · obtain ⟨r, hr, hlen⟩ := btLoop_curve_mono 0 20 2 wSigsLong [wBar0, wBarTp] 0
      (initState Trade 10000)
    have h := congrArg List.length hr
    simp [initState, hlen] at h
    exact h

/-- C7 (amended): `backtest_strategy` performs no validation of
`take_profit_pips`: for any `take_profit_pips ≤ 0` it still processes
every bar (one equity point per bar) and a directional non-first bar
still records a trade, returning a complete result rather than raising a
configuration error. -/
theorem nonpositive_tp_processed (tp sl cost init : ℚ) (sigs : List Signal)
    (df pre : List Bar) (bar : Bar) (d : Dir)
    (htp : tp ≤ 0) (hpre : pre ≠ [])
    (hd : (sigAt sigs pre.length).dir? = some d) :
    ((backtest_strategy df sigs tp sl cost init).equity_curve.length = df.length) ∧
    ∃ t : Trade, (backtest_strategy (pre ++ [bar]) sigs tp sl cost init).trades =
      (backtest_strategy pre sigs tp sl cost init).trades ++ [t] := by
  have hlen : pre.length ≠ 0 := fun h => hpre (List.length_eq_zero.mp h)
  constructor
  · obtain ⟨r, hr, hrlen⟩ := btLoop_curve_mono tp sl cost sigs df 0 (initState Trade init)
    have h := congrArg List.length hr
    simp [initState, hrlen] at h
    exact h
  · refine ⟨(⟨bar.Date, d, bar.Open, bar.Close, btBarPips tp sl cost bar d⟩ : Trade), ?_⟩
    rw [backtest_strategy_run, backtest_strategy_run,
      btLoop_cons_split tp sl cost sigs pre [] bar 0, Nat.zero_add]
    exact stepBar_trades_eval tp sl cost pre.length bar _ d _ hlen hd

/-- Witness for `nonpositive_tp_processed` at `take_profit_pips = 0`. -/
theorem nonpositive_tp_processed_witness :
    ((backtest_strategy [wBar0, wBarTp] wSigsLong 0 20 2 10000).equity_curve.length = 2) ∧
    ∃ t : Trade, (backtest_strategy [wBar0, wBarTp] wSigsLong 0 20 2 10000).trades =
      (backtest_strategy [wBar0] wSigsLong 0 20 2 10000).trades ++ [t] := by
  have h := nonpositive_tp_processed 0 20 2 10000 wSigsLong [wBar0, wBarTp] [wBar0]
    wBarTp Dir.long (by norm_num) (by decide) (by decide)
  exact h

end FX
